import Mathlib

/-
Verification of the pyfwert pattern-based password generator.

The development shallowly embeds the python sources (src/pyfwert/*.py):
strings are lists of characters, the secure random source is an arbitrary
draw stream `σ : Nat → Nat` (each draw taken mod 256, mirroring
`secrets.randbelow(256)`), stateful code threads an explicit state, and
code that can raise returns `Except`.  The external collaborators
(word-list lookup, number-to-words, pronounceable words) are parameters,
as in the specification's §6 interface list.
-/

deriving instance DecidableEq for Except

namespace Pyfwert

/-- Strings are modelled as lists of characters. -/
abbrev Str := List Char

/-! ## Character helpers (ASCII fragment of the python `str` methods) -/

/-- ASCII uppercase test, as python `c.isupper()` behaves on ASCII. -/
def pyIsUpperChar (c : Char) : Bool := 'A' ≤ c && c ≤ 'Z'

/-- ASCII lowercase test. -/
def pyIsLowerChar (c : Char) : Bool := 'a' ≤ c && c ≤ 'z'

/-- ASCII decimal digit test. -/
def pyIsDigitChar (c : Char) : Bool := '0' ≤ c && c ≤ '9'

/-- ASCII letter test, as python `c.isalpha()` behaves on ASCII. -/
def pyIsAlphaChar (c : Char) : Bool := pyIsUpperChar c || pyIsLowerChar c

/-- Python `c.lower()` on ASCII. -/
def pyLowerChar (c : Char) : Char :=
  if pyIsUpperChar c then Char.ofNat (c.toNat + 32) else c

/-- Python `c.upper()` on ASCII. -/
def pyUpperChar (c : Char) : Char :=
  if pyIsLowerChar c then Char.ofNat (c.toNat - 32) else c

/-- Python `s.lower()`. -/
def pyLower (s : Str) : Str := s.map pyLowerChar

/-- Python `s.upper()`. -/
def pyUpper (s : Str) : Str := s.map pyUpperChar

/-- Characters python `str.strip()` removes (ASCII whitespace). -/
def isPySpace (c : Char) : Bool :=
  c = ' ' || c = '\t' || c = '\n' || c = Char.ofNat 13 ||
  c = Char.ofNat 11 || c = Char.ofNat 12

/-- Python `s.strip()`: whitespace removed from both ends. -/
def stripStr (s : Str) : Str :=
  ((s.dropWhile isPySpace).reverse.dropWhile isPySpace).reverse

/-- Python `s.strip(chars)`: any of `cs` removed from both ends. -/
def stripChars (cs : List Char) (s : Str) : Str :=
  ((s.dropWhile (cs.contains ·)).reverse.dropWhile (cs.contains ·)).reverse

/-! ## Python string operations -/

/-- Worker for `replaceAll` with a non-empty pattern `o :: old`.  The
fuel argument makes the recursion structural (the string shrinks by at
least one character per step, so fuel `s.length` never runs out; the
`0` arm is unreachable from `replaceAll`). -/
def replaceAllGo (o : Char) (old new : Str) : Nat → Str → Str
  | _, [] => []
  | 0, s => s
  | f + 1, c :: rest =>
    if (o :: old).isPrefixOf (c :: rest) then
      new ++ replaceAllGo o old new f (rest.drop old.length)
    else
      c :: replaceAllGo o old new f rest

/-- Python `s.replace(old, new)`: every non-overlapping occurrence,
left to right.  An empty `old` inserts `new` before every character and
at the end, as python does. -/
def replaceAll (old new s : Str) : Str :=
  match old with
  | [] => new ++ s.flatMap (fun c => c :: new)
  | o :: old => replaceAllGo o old new s.length s

/-- Worker for `replaceFirst` with a non-empty pattern. -/
def replaceFirstGo (o : Char) (old new : Str) : Str → Str
  | [] => []
  | c :: rest =>
    if (o :: old).isPrefixOf (c :: rest) then
      new ++ rest.drop old.length
    else
      c :: replaceFirstGo o old new rest

/-- Python `s.replace(old, new, 1)`: at most one occurrence replaced. -/
def replaceFirst (old new s : Str) : Str :=
  match old with
  | [] => new ++ s
  | o :: old => replaceFirstGo o old new s

/-- Python `s.split(sep)` for a single-character separator: keeps empty
pieces, `[] ↦ [[]]`. -/
def splitOnChar (sep : Char) : Str → List Str
  | [] => [[]]
  | c :: rest =>
    match splitOnChar sep rest with
    | [] => if c = sep then [[], []] else [[c]]
    | h :: t => if c = sep then [] :: h :: t else (c :: h) :: t

/-- Python `sep.join(parts)` for a single-character separator. -/
def joinChar (sep : Char) : List Str → Str
  | [] => []
  | [p] => p
  | p :: rest => p ++ sep :: joinChar sep rest

/-- Concatenation of a list of strings. -/
def joinAll (ps : List Str) : Str := ps.flatMap id

/-! ## Python `int()` parsing -/

/-- Digit run with python's underscore grouping: underscores allowed only
between digits.  `acc` is the value parsed so far. -/
def pyIntCore : Nat → Str → Option Nat
  | acc, [] => some acc
  | _acc, ['_'] => none
  | acc, '_' :: c :: rest =>
    if pyIsDigitChar c then pyIntCore (acc * 10 + (c.toNat - 48)) rest else none
  | acc, c :: rest =>
    if pyIsDigitChar c then pyIntCore (acc * 10 + (c.toNat - 48)) rest else none

/-- A digit run must start with a digit. -/
def pyIntStart : Str → Option Nat
  | [] => none
  | c :: rest =>
    if pyIsDigitChar c then pyIntCore (c.toNat - 48) rest else none

/-- Python `int(s)` on ASCII input: optional surrounding whitespace,
optional sign, then digits (underscore grouping allowed); `none` models a
raised `ValueError`. -/
def pyInt (s : Str) : Option Int :=
  match stripStr s with
  | '+' :: rest => (pyIntStart rest).map (fun n => (n : Int))
  | '-' :: rest => (pyIntStart rest).map (fun n => -(n : Int))
  | rest => (pyIntStart rest).map (fun n => (n : Int))

/-- Python `str(i)` for an integer. -/
def intToStr (i : Int) : Str := (toString i).data

/-- Python `str(n)` for a natural number. -/
def natToStr (n : Nat) : Str := (toString n).data

/-! ## The weighted random primitive (`src/pyfwert/random.py`)

A draw stream `σ : Nat → Nat` stands for the sequence of
`secrets.randbelow(256)` results; position `pos` indexes the next draw.
Arithmetic is exact rational arithmetic in place of python floats. -/

/-- One narrowing step of `rand`: `ceiling = rnd*(ceiling-min)+min` with
`rnd = randbelow(256)/255`. -/
def randStep (σ : Nat → Nat) (minV : ℚ) : ℚ × Nat → ℚ × Nat :=
  fun cp => (((σ cp.2 % 256 : Nat) : ℚ) / 255 * (cp.1 - minV) + minV, cp.2 + 1)

/-- The `ceiling` value of `rand` after narrowing and the positive-weight
reflection, together with the next stream position. -/
def randCeil (σ : Nat → Nat) (maxVal minVal weight : Int) (pos : Nat) : ℚ × Nat :=
  let maxV : Int := if maxVal = 0 then 9 else maxVal
  let w : Int := if weight = 0 then 1 else weight
  let cp := (randStep σ (minVal : ℚ))^[w.natAbs] ((maxV : ℚ), pos)
  if 0 < w then ((maxV : ℚ) - (cp.1 - (minVal : ℚ)), cp.2) else cp

/-- Python `round()` on a rational: nearest integer, ties to even. -/
def roundHalfEven (q : ℚ) : Int :=
  if q - (⌊q⌋ : ℚ) < 1/2 then ⌊q⌋
  else if 1/2 < q - (⌊q⌋ : ℚ) then ⌊q⌋ + 1
  else if Even ⌊q⌋ then ⌊q⌋ else ⌊q⌋ + 1

/-- `rand(max_val, min_val, weight)` with `decimal_places = 0`:
`int(round(ceiling))`. -/
def rand (σ : Nat → Nat) (maxVal minVal weight : Int) (pos : Nat) : Int × Nat :=
  let cp := randCeil σ maxVal minVal weight pos
  (roundHalfEven cp.1, cp.2)

/-- `rand` with `decimal_places = d > 0`:
`round(ceiling * factor) / factor` as a rational. -/
def randDec (σ : Nat → Nat) (maxVal minVal weight : Int) (d : Nat) (pos : Nat) :
    ℚ × Nat :=
  let cp := randCeil σ maxVal minVal weight pos
  let factor : ℚ := 10 ^ d
  ((roundHalfEven (cp.1 * factor) : ℚ) / factor, cp.2)

/-- `chance(percent, weight)`: true iff `rand(100, 1, weight) <= percent`. -/
def chance (σ : Nat → Nat) (percent weight : Int) (pos : Nat) : Bool × Nat :=
  let vp := rand σ 100 1 weight pos
  (vp.1 ≤ percent, vp.2)

/-! ## Range lemmas for `rand` -/

theorem randStep_fst_mem {σ : Nat → Nat} {minV : ℚ} {cp : ℚ × Nat} {M : ℚ}
    (h1 : minV ≤ cp.1) (h2 : cp.1 ≤ M) :
    minV ≤ (randStep σ minV cp).1 ∧ (randStep σ minV cp).1 ≤ M := by
  have hr0 : (0 : ℚ) ≤ ((σ cp.2 % 256 : Nat) : ℚ) / 255 := by positivity
  have hr1 : ((σ cp.2 % 256 : Nat) : ℚ) / 255 ≤ 1 := by
    rw [div_le_one (by norm_num)]
    have : σ cp.2 % 256 < 256 := Nat.mod_lt _ (by norm_num)
    exact_mod_cast Nat.le_of_lt_succ this
  constructor
  · simp only [randStep]
    nlinarith
  · simp only [randStep]
    nlinarith

theorem randStep_iterate_mem {σ : Nat → Nat} {minV : ℚ} {M : ℚ} (n : Nat)
    (cp : ℚ × Nat) (h1 : minV ≤ cp.1) (h2 : cp.1 ≤ M) :
    minV ≤ ((randStep σ minV)^[n] cp).1 ∧ ((randStep σ minV)^[n] cp).1 ≤ M := by
  induction n generalizing cp with
  | zero => exact ⟨h1, h2⟩
  | succ n ih =>
    rw [Function.iterate_succ_apply]
    have h := @randStep_fst_mem σ minV cp M h1 h2
    exact ih _ h.1 h.2

theorem randCeil_fst_mem {σ : Nat → Nat} {maxVal minVal weight : Int}
    {pos : Nat} (hle : minVal ≤ (if maxVal = 0 then 9 else maxVal)) :
    ((minVal : ℚ) ≤ (randCeil σ maxVal minVal weight pos).1 ∧
      (randCeil σ maxVal minVal weight pos).1 ≤
        ((if maxVal = 0 then 9 else maxVal : Int) : ℚ)) := by
  unfold randCeil
  set M : Int := if maxVal = 0 then 9 else maxVal with hM
  have hleQ : (minVal : ℚ) ≤ (M : ℚ) := by exact_mod_cast hle
  set w : Int := if weight = 0 then 1 else weight with hw
  have hit := @randStep_iterate_mem σ (minVal : ℚ) (M : ℚ)
    w.natAbs ((M : ℚ), pos) hleQ le_rfl
  by_cases hpos : 0 < w
  · simp only [hpos, if_true]
    constructor
    · linarith [hit.2]
    · linarith [hit.1]
  · simp only [hpos, if_false]
    exact hit

theorem roundHalfEven_mem {q : ℚ} {m M : Int} (h1 : (m : ℚ) ≤ q)
    (h2 : q ≤ (M : ℚ)) : m ≤ roundHalfEven q ∧ roundHalfEven q ≤ M := by
  unfold roundHalfEven
  have hmf : m ≤ ⌊q⌋ := Int.le_floor.mpr h1
  have hfM : ⌊q⌋ ≤ M := by
    have := Int.floor_le q
    have : (⌊q⌋ : ℚ) ≤ (M : ℚ) := le_trans this h2
    exact_mod_cast this
  have hsucc : ¬ (q - (⌊q⌋ : ℚ) < 1/2) → ⌊q⌋ + 1 ≤ M := by
    intro hr
    rcases lt_or_eq_of_le hfM with h | h
    · omega
    · exfalso
      apply hr
      have : q - (⌊q⌋ : ℚ) ≤ 0 := by
        rw [h]
        linarith
      linarith
  split
  · exact ⟨hmf, hfM⟩
  · rename_i hr
    split
    · exact ⟨by omega, hsucc hr⟩
    · split
      · exact ⟨hmf, hfM⟩
      · exact ⟨by omega, hsucc hr⟩

/-- Core range fact: with `min_val ≤ max_val` and `max_val ≠ 0`, every
`rand(max_val, min_val, weight)` result lies in `[min_val, max_val]`,
whatever the draw stream supplies. -/
theorem rand_mem {σ : Nat → Nat} {maxVal minVal weight : Int} {pos : Nat}
    (hle : minVal ≤ maxVal) (hne : maxVal ≠ 0) :
    minVal ≤ (rand σ maxVal minVal weight pos).1 ∧
      (rand σ maxVal minVal weight pos).1 ≤ maxVal := by
  have hM : (if maxVal = 0 then 9 else maxVal) = maxVal := if_neg hne
  have h := @randCeil_fst_mem σ maxVal minVal weight pos (by rw [hM]; exact hle)
  rw [hM] at h
  exact roundHalfEven_mem h.1 h.2

/-- Convenient instance: a `rand(99, 0)` draw is in `[0, 99]`. -/
theorem rand99_mem (σ : Nat → Nat) (pos : Nat) :
    0 ≤ (rand σ 99 0 1 pos).1 ∧ (rand σ 99 0 1 pos).1 ≤ 99 :=
  rand_mem (by norm_num) (by norm_num)

/-! ## Constants (`src/pyfwert/constants.py`) -/

def VOWELS : Str := "eaoiu".data

def CONSONANTS : Str := "tnshrdlcmfgypwbvkxjqz".data

def SYMBOLS : Str :=
  "! @ # % $ ^ & * ( ) \x7b \x7d : \x27 / ` ~ * - < > + = _ | \\ \\ . . , , ; ; ? ? [ ]".data

def SENTENCE_PUNCTUATION : Str := "!;:?.,".data

def END_PUNCTUATION : Str :=
  "! ! ! ! . . . . . . . . . . . . . . . ... ... ? ? ? ? ? ? ?".data

def LETTERS : Str := "etaoinshrdlucmfgypwbvkxjqz".data

def NUMBERS : Str := "0123456789".data

def SMILEYS : Str := ":) :( :-) :-( :D :0 ;-) ;) :/ 8-) 8-( :-D :-0 :-p :^)".data

def VOWELS2 : Str :=
  ("a a a a a a a a a e e e e e e e e e e e i i i u u o o ay ea ee ia io oa oi" ++
   " oo er on re he ha in es io ou").data

def CONSONANTS2 : Str :=
  ("b b c d d d f g j k m m m n n p p qu r r r s s s s t t t t v w x z z th st" ++
   " sh ph ch th sh for has tis men").data

def THREE_LETTER_WORDS : Str :=
  ("the and for are but not you all any can had her was one our out day get" ++
   " has him his how man new now old see two way who boy did its let put say" ++
   " she too use").data

def KEYBOARD : Str :=
  ("1234567890`~!@#$%^&*()-_=+]\x7d[\x7b\\|\x27\";:/?.>,<abcdefghijklmnopqrstuvwxyz" ++
   "ABCDEFGHIJKLMNOPQRSTUVWXYZ").data

def NUMROW : Str := "1234567890".data

def NUMROW_FULL : Str := "1234567890`~!@#$%^&*()_-+=".data

def ROW1 : Str := "QWERTYUIOP".data

def ROW1_FULL : Str := "QWERTYUIOP\x7b[\x7d]|\\".data

def ROW2 : Str := "ASDFGHJKL".data

def ROW2_FULL : Str := "ASDFGHJKL;:\x27\"".data

def ROW3 : Str := "ZXCVBNM".data

def ROW3_FULL : Str := "ZXCVBNM,<.>/?".data

def LEFT_HAND : Str := "qwertasdfgzxcvb".data

def RIGHT_HAND : Str := "yuiophjknm".data

def LONG_MONTHS : Str :=
  "January February March April May June July August September October November December".data

def SHORT_MONTHS : Str := "Jan Feb Mar Apr May Jun Jul Aug Sep Oct Nov Dec".data

def LONG_DAYS : Str := "Monday Tuesday Wednesday Thursday Friday Saturday Sunday".data

def SHORT_DAYS : Str := "Mon Tue Wed Thu Fri Sat Sun".data

/-- `ESCAPE_SEQUENCES`, in the dict's insertion order. -/
def ESCAPE_SEQUENCES : List (Str × Str) :=
  [("\\\\".data, "#sla#".data), ("\\+".data, "#pls#".data),
   ("\\\x7b".data, "#lbr#".data), ("\\\x7d".data, "#rbr#".data),
   ("\\[".data, "#lba#".data), ("\\]".data, "#rba#".data),
   ("\\(".data, "#lpa#".data), ("\\)".data, "#rpa#".data),
   ("\\|".data, "#pip#".data)]

/-- `UNESCAPE_SEQUENCES`, in the dict's insertion order. -/
def UNESCAPE_SEQUENCES : List (Str × Str) :=
  [("#sla#".data, "\\".data), ("#pls#".data, "+".data),
   ("#lbr#".data, "\x7b".data), ("#rbr#".data, "\x7d".data),
   ("#lba#".data, "[".data), ("#rba#".data, "]".data),
   ("#lpa#".data, "(".data), ("#rpa#".data, ")".data),
   ("#pip#".data, "|".data)]

/-! ## Utility functions (`src/pyfwert/utils.py`) -/

/-- `pick_one` on an explicit list of items (the delimiter plays no part
once the list is split). -/
def pickOneList (σ : Nat → Nat) (items : List Str) (weight : Int) (pos : Nat) :
    Str × Nat :=
  if items.length = 0 then ([], pos)
  else if items.length = 1 then (stripStr (items.headD []), pos)
  else
    let ip := rand σ ((items.length : Int) - 1) 0 weight pos
    (stripStr (items.getD ip.1.toNat []), ip.2)

/-- `pick_one(items, weight, delimiter)` on a delimited string. -/
def pickOne (σ : Nat → Nat) (items : Str) (weight : Int) (delim : Char)
    (pos : Nat) : Str × Nat :=
  pickOneList σ (splitOnChar delim items) weight pos

/-- `pick_character(characters, weight)`: one character (as a string),
index `rand(length, 1, weight) - 1`. -/
def pickCharacter (σ : Nat → Nat) (characters : Str) (weight : Int)
    (pos : Nat) : Str × Nat :=
  if characters.isEmpty then ([], pos)
  else
    let ip := rand σ (characters.length : Int) 1 weight pos
    ([characters.getD (ip.1 - 1).toNat ' '], ip.2)

/-- `sentence_case(text)`: first character uppercased, rest lowercased. -/
def sentenceCase : Str → Str
  | [] => []
  | c :: rest => pyUpperChar c :: pyLower rest

/-- `get_ordinal(num)`: decimal representation plus ordinal suffix. -/
def getOrdinal (num : Int) : Str :=
  let n := intToStr num
  let lastTwo := if n.length ≥ 2 then n.drop (n.length - 2) else n
  if lastTwo = "11".data ∨ lastTwo = "12".data ∨ lastTwo = "13".data then
    n ++ "th".data
  else
    match n.getLast? with
    | some '1' => n ++ "st".data
    | some '2' => n ++ "nd".data
    | some '3' => n ++ "rd".data
    | _ => n ++ "th".data

def NATO_WORDS : List Str :=
  ["Alpha".data, "Bravo".data, "Charlie".data, "Delta".data, "Echo".data,
   "Foxtrot".data, "Golf".data, "Hotel".data, "India".data, "Juliet".data,
   "Kilo".data, "Lima".data, "Mike".data, "November".data, "Oscar".data,
   "Papa".data, "Quebec".data, "Romeo".data, "Sierra".data, "Tango".data,
   "Uniform".data, "Victor".data, "Whiskey".data, "X-Ray".data,
   "Yankee".data, "Zulu".data]

def ALT_PHONETIC_WORDS : List Str :=
  ["Adam".data, "Baker".data, "Charles".data, "David".data, "Edward".data,
   "Frank".data, "George".data, "Henry".data, "Ida".data, "John".data,
   "King".data, "Lincoln".data, "Mary".data, "Nora".data, "Ocean".data,
   "Paul".data, "Queen".data, "Robert".data, "Sam".data, "Tom".data,
   "Union".data, "Victor".data, "William".data, "X-Ray".data,
   "Young".data, "Zebra".data]

/-- `get_phonetic(word, style)`: phonetic-alphabet words for the letters
of the uppercased input, space-joined. -/
def getPhonetic (word : Str) (style : Int) : Str :=
  let table := if style = 1 ∨ style = 0 then NATO_WORDS else ALT_PHONETIC_WORDS
  let picked := (pyUpper word).filterMap (fun c =>
    let idx : Int := (c.toNat : Int) - ('A'.toNat : Int)
    if 0 ≤ idx ∧ idx < 26 then some (table.getD idx.toNat []) else none)
  joinChar ' ' picked

/-- The subtractive-notation value table of `to_roman`. -/
def ROMAN_VALUES : List (Nat × Str) :=
  [(1000, "M".data), (900, "CM".data), (500, "D".data), (400, "CD".data),
   (100, "C".data), (90, "XC".data), (50, "L".data), (40, "XL".data),
   (10, "X".data), (9, "IX".data), (5, "V".data), (4, "IV".data),
   (1, "I".data)]

/-- One pass of the `to_roman` while-loops: for each table entry the
source appends the numeral while `num >= value`, i.e. `num / value`
copies, and continues with `num % value`. -/
def romanFold : List (Nat × Str) → Nat → Str
  | [], _ => []
  | (v, numeral) :: rest, num =>
    joinAll (List.replicate (num / v) numeral) ++ romanFold rest (num % v)

/-- `to_roman(number)`: empty for `number <= 0`, else greedy subtractive
notation. -/
def toRoman (number : Int) : Str :=
  if number ≤ 0 then [] else romanFold ROMAN_VALUES number.toNat

/-! ## Python exceptions and slicing -/

/-- The exceptions the embedded code can raise.  The resolver catches
only `valueError` (`except ValueError: pass`); everything else escapes to
the session.  `fuel` is an artifact of the embedding for recursion the
source bounds only probabilistically. -/
inductive PyErr where
  | valueError : PyErr
  | indexError : PyErr
  | fileNotFound : PyErr
  | fuel : PyErr
deriving DecidableEq, Repr

/-- Result of embedded code that can raise: a raised exception carries
the draw-stream position reached at the raise, so that a caller that
catches it resumes at the right position. -/
abbrev PyRes := Except (PyErr × Nat) (Str × Nat)

/-- Python list/string indexing `l[i]`, negative indices counting from
the end; `none` models a raised `IndexError`. -/
def pyIdx {α : Type} (l : List α) (i : Int) : Option α :=
  let j : Int := if i < 0 then (l.length : Int) + i else i
  if 0 ≤ j ∧ j < (l.length : Int) then l.get? j.toNat else none

/-- Python slicing `s[a:b]`: negative bounds count from the end, all
bounds clamp, never an error. -/
def pySlice (s : Str) (a b : Int) : Str :=
  let n : Int := s.length
  let a' : Int := if a < 0 then max (n + a) 0 else min a n
  let b' : Int := if b < 0 then max (n + b) 0 else min b n
  (s.drop a'.toNat).take (b' - a').toNat

/-- Python `s[a:]`. -/
def pySliceFrom (s : Str) (a : Int) : Str :=
  let n : Int := s.length
  let a' : Int := if a < 0 then max (n + a) 0 else min a n
  s.drop a'.toNat

/-- Python `s[:b]`. -/
def pySliceTo (s : Str) (b : Int) : Str :=
  let n : Int := s.length
  let b' : Int := if b < 0 then max (n + b) 0 else min b n
  s.take b'.toNat

/-- Python `s.zfill(width)`: pad with zeros on the left, keeping a
leading sign in place. -/
def pyZfill (s : Str) (width : Nat) : Str :=
  if width ≤ s.length then s
  else
    let pad := List.replicate (width - s.length) '0'
    match s with
    | c :: rest => if c = '+' ∨ c = '-' then c :: (pad ++ rest) else pad ++ s
    | [] => pad

/-- Python `sub in s` membership: `sub` occurs as a contiguous substring. -/
def containsSub (sub : Str) : Str → Bool
  | [] => sub.isEmpty
  | c :: rest => sub.isPrefixOf (c :: rest) || containsSub sub rest

/-- Python `s.title()` on ASCII: a letter not preceded by a letter is
uppercased, every other letter lowercased. -/
def pyTitleGo : Bool → Str → Str
  | _, [] => []
  | prevAlpha, c :: rest =>
    if pyIsAlphaChar c then
      (if prevAlpha then pyLowerChar c else pyUpperChar c) :: pyTitleGo true rest
    else c :: pyTitleGo false rest

def pyTitle (s : Str) : Str := pyTitleGo false s

/-! ## External collaborators (spec §6)

The word-list store, the number-to-words formatter and the pronounceable
word generator live outside the core (file I/O and large tables); the
spec lists them as external interfaces.  They are parameters here. -/

structure Ext where
  /-- `random_word(wordlist, dir)`: draws from the named list, advancing
  the draw stream; `none` models `FileNotFoundError`. -/
  lookupWord : Str → Nat → Option (Str × Nat)
  /-- `number_as_text(text)` from `number_text.py`. -/
  numberToWords : Str → Str
  /-- `pronounceable_word()` from `pronounceable.py`. -/
  pronounceableWord : Nat → Str × Nat
  /-- `get_random_pattern(dir)` from `wordlists.py`. -/
  randomPattern : Nat → Str × Nat

/-! ## Modifiers (`src/pyfwert/modifiers.py`) -/

def DEFAULT_BRACKETS : Str :=
  ("[ ] < > ( ) ( ) ( ) ( ) ( ) ( ) ( ) ( ) [ ] [ ] | | \\ / * * [ ] \x7b \x7d" ++
   " / / \\ / / \\ \\ \\ <- -> -> <-").data

/-- `bracket(word, bracket_list)`: wrap in a random pair from the
space-separated list. -/
def bracket (σ : Nat → Nat) (word bracketList : Str) (pos : Nat) : PyRes :=
  let bl := if bracketList.isEmpty then DEFAULT_BRACKETS else bracketList
  let brackets := splitOnChar ' ' bl
  if brackets.length < 2 then .ok (word, pos)
  else
    let rp := rand σ ((brackets.length : Int) / 2 - 1) 0 1 pos
    let x := rp.1 * 2
    match pyIdx brackets x, pyIdx brackets (x + 1) with
    | some b1, some b2 => .ok (b1 ++ word ++ b2, rp.2)
    | _, _ => .error (.indexError, rp.2)

/-- The leet-speak substitution table of `obscure`, in source order. -/
def OBSCURE_RULES : List (Str × Str) :=
  [("ate".data, "8".data), ("for".data, "4".data), ("e".data, "3".data),
   ("l".data, "1".data), ("s".data, "z".data),
   ("o".data, "0".data), ("a".data, "@".data), ("s".data, "$".data),
   ("l".data, "|".data), ("ait".data, "8".data),
   ("a".data, "".data), ("e".data, "".data), ("ou".data, "u".data),
   ("cc".data, "x".data), ("oo".data, "ew".data),
   ("and".data, "&".data), ("are".data, "r".data), ("ks".data, "x".data),
   ("f".data, "ph".data), ("ph".data, "f".data),
   ("won".data, "1".data), ("l".data, "r".data), ("ee".data, "eee".data),
   ("000".data, "k".data), ("er".data, "r".data),
   ("ex".data, "x".data), ("ecs".data, "x".data), ("m".data, "mm".data),
   ("cke".data, "x0".data), ("qu".data, "kw".data),
   ("a".data, "\x27".data), ("u".data, "\x27".data), ("ei".data, "ee".data),
   ("one".data, "own".data), ("oi".data, "oy".data),
   ("om".data, "um".data), ("a".data, "aa".data), ("ew".data, "u".data),
   ("us".data, "is".data), ("y".data, "ee".data),
   ("sh".data, "ch".data), ("to".data, "2".data), ("s".data, "th".data),
   ("ck".data, "q".data), ("ci".data, "si".data),
   ("ie".data, "iye".data), ("tion".data, "shun".data), ("r".data, "w".data),
   ("come".data, "cum".data),
   ("cks".data, "x".data), ("ight".data, "ite".data), ("ing".data, "\x27n".data),
   ("th".data, "f".data),
   ("too".data, "2".data), ("why".data, "y".data), ("your".data, "yor".data),
   ("sc".data, "sh".data),
   ("sh".data, "th".data), ("ly".data, "lee".data), ("er".data, "uh".data),
   ("er".data, "a".data),
   ("the".data, "da".data), ("it is".data, "\x27tis".data), ("you".data, "ya".data),
   ("l".data, "w".data),
   ("th".data, "d".data), ("a".data, "u".data), ("th".data, "\x27".data),
   ("your".data, "yer".data),
   ("ned".data, "nt".data), ("e".data, "_".data), ("t".data, "+".data),
   ("e".data, "=".data), ("can".data, "kin".data),
   ("t".data, "\x27".data), ("ng".data, "n\x27".data), ("red".data, "hed".data),
   ("he".data, "eh".data), ("h".data, "".data),
   ("f".data, "v".data), ("ha".data, "o".data), ("v".data, "f".data),
   ("v".data, "b".data), ("N".data, "|\\|".data),
   ("ll".data, "dd".data), ("ll".data, "tt".data), ("dd".data, "tt".data),
   ("h".data, "\x27".data), ("o".data, "a".data),
   ("e".data, "a".data), ("a".data, "uh".data), ("a".data, "u".data),
   ("oo".data, "u".data), ("i".data, "ih".data),
   ("a ".data, "ah".data), ("s".data, "ss".data), ("t".data, "tt".data),
   ("d".data, "dd".data), ("at".data, "@".data),
   (" ".data, "".data), ("with".data, "w/".data), ("t".data, "d".data),
   ("t".data, "dd".data), ("d".data, "t".data),
   ("d".data, "tt".data), ("cks".data, "x".data), ("er".data, "ah".data)]

/-- The substitution loop of `obscure`: one rule draw per iteration,
single-shot replace when the pattern occurs, 75%-chance early exit once
`i >= 2` and the word has changed. -/
def obscureGo (σ : Nat → Nat) (word : Str) :
    Nat → Nat → Str → Nat → Str × Nat
  | 0, _i, result, pos => (result, pos)
  | n + 1, i, result, pos =>
    let rp := rand σ ((OBSCURE_RULES.length : Int) - 1) 0 1 pos
    let rule := OBSCURE_RULES.getD rp.1.toNat ([], [])
    let result' := if containsSub rule.1 result then
        replaceFirst rule.1 rule.2 result
      else result
    if 2 ≤ i ∧ result' ≠ word then
      let cp := chance σ 75 1 rp.2
      if cp.1 then (result', cp.2) else obscureGo σ word n (i + 1) result' cp.2
    else obscureGo σ word n (i + 1) result' rp.2

/-- `obscure(word)`: 2-20 (weight 2) substitution attempts. -/
def obscure (σ : Nat → Nat) (word : Str) (pos : Nat) : Str × Nat :=
  let mp := rand σ 20 2 2 pos
  obscureGo σ word mp.1.toNat 0 word mp.2

/-- Per-character fold for `random_case` choice 5 (fully random case):
one `rand(1)` draw per character. -/
def randomCaseEach (σ : Nat → Nat) : Str → Nat → Str × Nat
  | [], pos => ([], pos)
  | c :: rest, pos =>
    let rp := rand σ 1 0 1 pos
    let cr := randomCaseEach σ rest rp.2
    ((if rp.1 ≠ 0 then pyUpperChar c else c) :: cr.1, cr.2)

/-- `random_case(word)`: one of 15 strategies chosen by `rand(14, 0)`.
Called only with non-empty `word` (guarded by `apply_modifier`). -/
def randomCase (σ : Nat → Nat) (word : Str) (pos : Nat) : PyRes :=
  let cp := rand σ 14 0 1 pos
  let choice := cp.1
  let pos := cp.2
  if choice = 0 then .ok (word, pos)
  else if choice = 1 then .ok (pyUpper word, pos)
  else if choice = 2 then .ok (pyLower word, pos)
  else if choice = 3 then .ok (pyTitle word, pos)
  else if choice = 4 then
    let ip := rand σ ((word.length : Int) - 1) 0 1 pos
    match pyIdx word ip.1 with
    | some letter => .ok (replaceAll [letter] [pyUpperChar letter] word, ip.2)
    | none => .error (.indexError, ip.2)
  else if choice = 5 then .ok (randomCaseEach σ word pos)
  else if choice = 6 ∨ choice = 7 then
    let ip := rand σ ((word.length : Int) - 1) 0 1 pos
    match pyIdx word ip.1 with
    | some letter =>
      .ok (pySliceTo word ip.1 ++ [pyUpperChar letter] ++
        pySliceFrom word (ip.1 + 1), ip.2)
    | none => .error (.indexError, ip.2)
  else if choice = 8 then
    .ok (word.map (fun c => if VOWELS.contains (pyLowerChar c) then
      pyUpperChar c else c), pos)
  else if choice = 9 then
    .ok (word.map (fun c => if CONSONANTS.contains (pyLowerChar c) then
      pyUpperChar c else c), pos)
  else if choice = 10 then
    let ip := rand σ ((word.length : Int) - 2) 0 1 pos
    .ok (pySliceTo word ip.1 ++ pyUpper (pySlice word ip.1 (ip.1 + 2)) ++
      pySliceFrom word (ip.1 + 2), ip.2)
  else if choice = 11 then
    .ok (pySliceTo word (-1) ++ pyUpper (pySliceFrom word (-1)), pos)
  else if choice = 12 then
    if 2 ≤ word.length then
      .ok (pyUpper (pySliceTo word 1) ++ pySlice word 1 (-1) ++
        pyUpper (pySliceFrom word (-1)), pos)
    else .ok (pyUpper word, pos)
  else if choice = 13 then
    let xp := rand σ (word.length : Int) 1 2 pos
    .ok (pyUpper (pySliceTo word xp.1) ++ pySliceFrom word xp.1, xp.2)
  else
    .ok ((List.range word.length).zip word |>.map (fun ic =>
      if ic.1 % 2 = 0 then pyUpperChar ic.2 else ic.2), pos)

/-- The swap loop of `scramble_word`: two index draws and a simultaneous
swap per round. -/
def scrambleGo (σ : Nat → Nat) : Nat → Str → Nat → Str × Nat
  | 0, chars, pos => (chars, pos)
  | t + 1, chars, pos =>
    let r1 := rand σ ((chars.length : Int) - 1) 0 1 pos
    let r2 := rand σ ((chars.length : Int) - 1) 0 1 r1.2
    let i1 := r1.1.toNat
    let i2 := r2.1.toNat
    let a := chars.getD i1 ' '
    let b := chars.getD i2 ' '
    scrambleGo σ t ((chars.set i1 b).set i2 a) r2.2

/-- `scramble_word(word, times)`: words shorter than two characters pass
through; otherwise `times` random transpositions. -/
def scrambleWord (σ : Nat → Nat) (word : Str) (times : Int) (pos : Nat) :
    Str × Nat :=
  if word.length < 2 then (word, pos)
  else scrambleGo σ times.toNat word pos

/-- `pig_latin` on one space-separated word. -/
def pigLatinWord (word : Str) : Str :=
  match word with
  | [] => []
  | c :: rest =>
    let converted :=
      if ("aeiou".data).contains (pyLowerChar c) then word ++ "yay".data
      else rest ++ [c] ++ "ay".data
    if pyIsUpperChar c then
      match converted with
      | [] => []
      | d :: drest => pyUpperChar d :: pyLower drest
    else converted

/-- `pig_latin(text)`: per space-separated word, with capitalization of
the first letter preserved. -/
def pigLatin (text : Str) : Str :=
  joinChar ' ' ((splitOnChar ' ' text).map pigLatinWord)

/-- `swap_initials(text)`: swap the first letters of the first two
space-separated words. -/
def swapInitials (text : Str) : Str :=
  match splitOnChar ' ' text with
  | (a :: r1) :: (b :: r2) :: rest => joinChar ' ' ((b :: r1) :: (a :: r2) :: rest)
  | w1 :: w2 :: rest => joinChar ' ' (w1 :: w2 :: rest)
  | _ => text

/-- The scan of `stutter` for the first syllable-marker character;
`pre` is the prefix already passed. -/
def stutterGo (σ : Nat → Nat) (word marker : Str) :
    Str → Str → Nat → Str × Nat
  | _pre, [], pos => (word, pos)
  | pre, c :: rest, pos =>
    if marker.contains (pyLowerChar c) then
      let firstPart := pre ++ [c]
      let e1 := rand σ 100 0 1 pos
      let firstPart := if e1.1 < 5 then firstPart ++ "...".data else firstPart
      let e2 := rand σ 100 0 1 e1.2
      let firstPart := if e2.1 < 10 then firstPart ++ " ".data else firstPart
      let np := rand σ 4 1 (-2) e2.2
      (joinAll (List.replicate np.1.toNat firstPart) ++ word, np.2)
    else stutterGo σ word marker (pre ++ [c]) rest pos

/-- `stutter(word)`: prepend 1-4 copies of the prefix up to the first
syllable marker. -/
def stutter (σ : Nat → Nat) (word : Str) (pos : Nat) : Str × Nat :=
  let rp := rand σ 100 0 1 pos
  let marker := if 20 < rp.1 then "aeiou".data else "hywrtnaeiou".data
  stutterGo σ word marker [] word rp.2

/-- Modifier names the `random` meta-modifier picks from. -/
def RANDOM_MODIFIERS : Str :=
  "bracket num2words randomcase reverse obscure piglatin scramble swap".data

/-- `apply_modifier(word, modifier_name, params)`.  `fuel` only bounds
the self-call of the `random` branch, whose picked name is never
`random` again, so `fuel = 2` reproduces the source.  A `.error
.valueError` result models a raised `ValueError` (which includes the
unknown-modifier case and `int()` failures on parameters). -/
def applyModifierGo (σ : Nat → Nat) (ext : Ext) :
    Nat → Str → Str → List Str → Nat → PyRes
  | 0, _, _, _, pos => .error (.fuel, pos)
  | fuel + 1, word, modifierName, params, pos =>
  if word.isEmpty then .ok (word, pos) else
  let ps := (params ++ [[], [], [], []]).take 4
  let p0 := ps.getD 0 []
  let p1 := ps.getD 1 []
  let m := stripStr (pyLower modifierName)
  if m = "a".data then
    if ("aeiou".data).contains (pyLowerChar (word.headD ' ')) then
      .ok ("an ".data ++ word, pos)
    else .ok ("a ".data ++ word, pos)
  else if m = "bracket".data then bracket σ word p0 pos
  else if m = "num2word".data ∨ m = "num2words".data then
    .ok (sentenceCase (ext.numberToWords word), pos)
  else if m = "reverse".data then .ok (word.reverse, pos)
  else if m = "ucase".data ∨ m = "uppercase".data then .ok (pyUpper word, pos)
  else if m = "lcase".data ∨ m = "lowercase".data then .ok (pyLower word, pos)
  else if m = "propercase".data then .ok (pyTitle word, pos)
  else if m = "sentencecase".data then .ok (sentenceCase word, pos)
  else if m = "obscure".data then .ok (obscure σ word pos)
  else if m = "replace".data then .ok (replaceAll p0 p1 word, pos)
  else if m = "randomcase".data then randomCase σ word pos
  else if m = "scramble".data then
    match (if p0.isEmpty then some 1 else pyInt p0) with
    | none => .error (.valueError, pos)
    | some times => .ok (scrambleWord σ word times pos)
  else if m = "piglatin".data then .ok (pigLatin word, pos)
  else if m = "repeat".data then
    match (if p0.isEmpty then some 1 else pyInt p0) with
    | none => .error (.valueError, pos)
    | some times => .ok (joinAll (List.replicate (times + 1).toNat word), pos)
  else if m = "right".data then
    match (if p0.isEmpty then some (word.length : Int) else pyInt p0) with
    | none => .error (.valueError, pos)
    | some len => .ok (pySliceFrom word (-len), pos)
  else if m = "left".data then
    match (if p0.isEmpty then some (word.length : Int) else pyInt p0) with
    | none => .error (.valueError, pos)
    | some len => .ok (pySliceTo word len, pos)
  else if m = "trim".data then .ok (stripStr word, pos)
  else if m = "format".data then
    let fmt := if p0.isEmpty then "0".data else p0
    if fmt.contains '0' then .ok (pyZfill word (fmt.count '0'), pos)
    else .ok (word, pos)
  else if m = "mid".data then
    match (if p0.isEmpty then some 1 else pyInt p0),
        (if p1.isEmpty then some 1 else pyInt p1) with
    | some start, some len => .ok (pySlice word (start - 1) (start - 1 + len), pos)
    | _, _ => .error (.valueError, pos)
  else if m = "swap".data then .ok (swapInitials word, pos)
  else if m = "romannumeral".data then
    match pyInt word with
    | some n => .ok (toRoman n, pos)
    | none => .ok (word, pos)
  else if m = "hide".data then .ok ([], pos)
  else if m = "quote".data then .ok ('"' :: word ++ ['"'], pos)
  else if m = "stutter".data then .ok (stutter σ word pos)
  else if m = "random".data then
    let pk := pickOne σ RANDOM_MODIFIERS 1 ' ' pos
    applyModifierGo σ ext fuel word pk.1 params pk.2
  else .error (.valueError, pos)

def applyModifier (σ : Nat → Nat) (ext : Ext) (word modifierName : Str)
    (params : List Str) (pos : Nat) : PyRes :=
  applyModifierGo σ ext 2 word modifierName params pos

/-! ## Builtin placeholders (`src/pyfwert/placeholders.py`) -/

/-- Zig-zag loop of `get_sequence` choices 11-16: two source rows, index
stepped mod `modv`.  The guarded append adds two characters whenever the
index is inside both rows; the fuel `length + 1` covers the loop because
every real iteration appends at least two characters. -/
def seqLoop2 (a b : Str) (modv targetLen : Nat) : Nat → Nat → Str → Str
  | 0, _i, seq => seq
  | f + 1, i, seq =>
    if seq.length < targetLen then
      let seq' := if i < a.length ∧ i < b.length then
          seq ++ [a.getD i ' ', b.getD i ' '] else seq
      seqLoop2 a b modv targetLen f ((i + 1) % modv) seq'
    else seq

/-- Mirror loop of `get_sequence` choices 17, 18 and the default branch:
pairs `key[i]` with `key[len-i-1]`, `i` incrementing until it leaves the
row.  Fuel covers the at most `len` increments. -/
def seqLoopMirror (a : Str) (targetLen : Nat) : Nat → Nat → Str → Str
  | 0, _i, seq => seq
  | f + 1, i, seq =>
    if seq.length < targetLen ∧ i < a.length then
      let j : Int := (a.length : Int) - (i : Int) - 1
      let seq' := if 0 ≤ j ∧ j < (a.length : Int) then
          seq ++ [a.getD i ' ', a.getD j.toNat ' '] else seq
      seqLoopMirror a targetLen f (i + 1) seq'
    else seq

/-- `get_sequence(length)`: one of 20 keyboard/alphabet strategies. -/
def getSequence (σ : Nat → Nat) (length : Int) (pos : Nat) : Str × Nat :=
  let letters := "abcdefghijklmnopqrstuvwxyz".data
  let numbers := "1234567890".data
  let key1 := "qwertyuiop".data
  let key2 := "asdfghjkl".data
  let key3 := "zxcvbnm".data
  let key4 := "poiuytrewq".data
  let key5 := "lkjhgfdsa".data
  let key6 := "mnbvcxz".data
  let L : Nat := (if length ≤ 0 then 3 else length).toNat
  let cp := rand σ 19 0 1 pos
  let choice := cp.1
  let pos := cp.2
  let window := fun (x : Str) (pos : Nat) =>
    let sp := rand σ ((x.length : Int) - (L : Int)) 0 1 pos
    (pySlice x sp.1 (sp.1 + (L : Int)), sp.2)
  let sp :=
    if choice = 1 then window letters pos
    else if choice = 2 then window numbers pos
    else if choice = 3 then window key1 pos
    else if choice = 4 then window key2 pos
    else if choice = 5 then window key3 pos
    else if choice = 6 then window key4 pos
    else if choice = 7 then window key5 pos
    else if choice = 8 then window key6 pos
    else if choice = 9 then
      let ip := rand σ 7 1 1 pos
      let n : Int := (L / 3 : Nat)
      (pySlice key1 ip.1 (ip.1 + n) ++ pySlice key2 ip.1 (ip.1 + n) ++
        pySlice key3 ip.1 (ip.1 + n), ip.2)
    else if choice = 10 then
      let ip := rand σ 7 1 1 pos
      let n : Int := (L / 3 : Nat)
      (pySlice key3 ip.1 (ip.1 + n) ++ pySlice key2 ip.1 (ip.1 + n) ++
        pySlice key1 ip.1 (ip.1 + n), ip.2)
    else if choice = 11 ∨ choice = 12 ∨ choice = 13 then
      let ip := rand σ (min 8 (min ((key1.length : Int) - 1)
        ((key2.length : Int) - 1))) 1 1 pos
      (seqLoop2 key1 key2 (min key1.length key2.length) L (L + 1)
        ip.1.toNat [], ip.2)
    else if choice = 14 then
      let ip := rand σ 9 1 1 pos
      (seqLoop2 key1 numbers (min key1.length numbers.length) L (L + 1)
        ip.1.toNat [], ip.2)
    else if choice = 15 ∨ choice = 16 then
      let ip := rand σ (min 8 (min ((key4.length : Int) - 1)
        ((key5.length : Int) - 1))) 1 1 pos
      (seqLoop2 key4 key5 (min key4.length key5.length) L (L + 1)
        ip.1.toNat [], ip.2)
    else if choice = 17 then
      let ip := rand σ 9 1 1 pos
      (seqLoopMirror key1 L (L + key1.length + 1) ip.1.toNat [], ip.2)
    else if choice = 18 then
      let ip := rand σ 8 1 1 pos
      (seqLoopMirror key2 L (L + key2.length + 1) ip.1.toNat [], ip.2)
    else
      let ip := rand σ 6 1 1 pos
      (seqLoopMirror key3 L (L + key3.length + 1) ip.1.toNat [], ip.2)
  (sp.1.take L, sp.2)

/-- The per-digit loop of `get_number_pattern`; `ds` holds the digits
assigned so far (source positions `1..ds.length`). -/
def numberPatternGo (σ : Nat → Nat) : Nat → List Str → Nat →
    Except (PyErr × Nat) (List Str × Nat)
  | 0, ds, pos => .ok (ds, pos)
  | n + 1, ds, pos =>
    let cp := rand σ 3 0 1 pos
    let prevS := ds.getLastD []
    let prev : Except (PyErr × Nat) Int :=
      if prevS.isEmpty then .ok 0 else
        match pyInt prevS with
        | some v => .ok v
        | none => .error (.valueError, cp.2)
    match cp.1, prev with
    | 0, _ =>
      let rp := rand σ 9 0 1 cp.2
      numberPatternGo σ n (ds ++ [intToStr rp.1]) rp.2
    | 1, _ =>
      let rp := rand σ (ds.length : Int) 1 1 cp.2
      numberPatternGo σ n (ds ++ [ds.getD (rp.1 - 1).toNat []]) rp.2
    | 2, .ok prev =>
      if 1 < prev then numberPatternGo σ n (ds ++ [intToStr (prev - 1)]) cp.2
      else
        let rp := rand σ 9 0 1 cp.2
        numberPatternGo σ n (ds ++ [intToStr rp.1]) rp.2
    | 2, .error e => .error e
    | _, .ok prev =>
      if prev < 9 then numberPatternGo σ n (ds ++ [intToStr (prev + 1)]) cp.2
      else
        let rp := rand σ 9 0 1 cp.2
        numberPatternGo σ n (ds ++ [intToStr rp.1]) rp.2
    | _, .error e => .error e

/-- `get_number_pattern(length)`. -/
def getNumberPattern (σ : Nat → Nat) (length : Int) (pos : Nat) : PyRes :=
  let L : Nat := (if length ≤ 0 then 3 else length).toNat
  let d1 := rand σ 9 0 1 pos
  match numberPatternGo σ (L - 1) [intToStr d1.1] d1.2 with
  | .error e => .error e
  | .ok (ds, pos) => .ok (pyZfill (joinAll ds) L, pos)

/-- Inner `while True` of `number_code`; breaks after at most three
rounds because the code grows every round and `len > 2` forces a break,
so fuel 4 is never exhausted. -/
def numberCodeInner (σ : Nat → Nat) (x rep delim : Str) :
    Nat → Str → Nat → Str × Nat
  | 0, code, pos => (code, pos)
  | f + 1, code, pos =>
    let code := code ++ x
    let c1 := chance σ 30 1 pos
    let cp := if c1.1 then (code ++ rep, c1.2) else
      let c2 := chance σ 40 1 c1.2
      (if c2.1 then code ++ delim else code, c2.2)
    let code := cp.1
    let pos := cp.2
    if 2 < code.length then (code, pos)
    else
      let c3 := chance σ 30 1 pos
      if c3.1 then numberCodeInner σ x rep delim f code c3.2
      else (code, c3.2)

/-- Outer `while True` of `number_code`.  The code grows every round and
the round after its length passes 4 must break, so the fixed fuel is
never exhausted on real executions; exhaustion maps to `.error .fuel`. -/
def numberCodeOuter (σ : Nat → Nat) (rep delim : Str) :
    Nat → Str → Nat → PyRes
  | 0, _code, pos => .error (.fuel, pos)
  | f + 1, code, pos =>
    let xp := rand σ 9 0 1 pos
    let ip := numberCodeInner σ (intToStr xp.1) rep delim 4 code xp.2
    let code := ip.1
    let bp := rand σ 4 3 1 ip.2
    if bp.1 < (code.length : Int) then .ok (code, bp.2)
    else
      let cb := chance σ 10 1 bp.2
      let next : PyRes :=
        if cb.1 then bracket σ code [] cb.2 else .ok (code, cb.2)
      match next with
      | .error e => .error e
      | .ok (code, pos) =>
        let cf := chance σ 15 1 pos
        if cf.1 ∧ 2 < code.length then .ok (code, cf.2)
        else numberCodeOuter σ rep delim f code cf.2

/-- `number_code()`. -/
def numberCode (σ : Nat → Nat) (pos : Nat) : PyRes :=
  let rp := rand σ 9 0 1 pos
  let dp := pickOne σ "- - - - - - - - . . . , / \\ :".data 1 ' ' rp.2
  match numberCodeOuter σ (intToStr rp.1) dp.1 16 [] dp.2 with
  | .error e => .error e
  | .ok (code, pos) =>
    if code ≠ [] ∧ ¬ pyIsDigitChar (code.getLastD ' ') then
      .ok (code.dropLast, pos)
    else .ok (code, pos)

/-- Repeated `pick_character` draws, concatenated (`vowel`, `consonant`
and `letter` placeholders). -/
def pickChars (σ : Nat → Nat) (characters : Str) (weight : Int) :
    Nat → Nat → Str × Nat
  | 0, pos => ([], pos)
  | n + 1, pos =>
    let cp := pickCharacter σ characters weight pos
    let rest := pickChars σ characters weight n cp.2
    (cp.1 ++ rest.1, rest.2)

/-- Fixed-point rendering of the `decimal_places > 0` branch of the
`number` placeholder: digits of `round(ceiling*10^dp)/10^dp` with
trailing fractional zeros trimmed down to one digit, as python's `str`
prints such values. -/
def fixedRepr (scaled : Int) (dp : Nat) : Str :=
  let core := fun (n : Nat) =>
    let f := (10 : Nat) ^ dp
    let frac := pyZfill (natToStr (n % f)) dp
    let frac' := (frac.reverse.dropWhile (· = '0')).reverse
    let frac'' := if frac'.isEmpty then "0".data else frac'
    natToStr (n / f) ++ ".".data ++ frac''
  if scaled < 0 then '-' :: core scaled.natAbs else core scaled.toNat

/-- `resolve_placeholder(name, params)`: dispatch on the lowercased,
stripped placeholder name; unknown names fall back to the word-list
collaborator, and if that fails the original `name` is returned. -/
def resolvePlaceholder (σ : Nat → Nat) (ext : Ext) (name : Str)
    (params : List Str) (pos : Nat) : PyRes :=
  let ps := (params ++ [[], [], [], []]).take 4
  let p0 := ps.getD 0 []
  let p1 := ps.getD 1 []
  let p2 := ps.getD 2 []
  let p3 := ps.getD 3 []
  let ph := stripStr (pyLower name)
  if ph = "word".data then
    let wl := if p0.isEmpty then "4-letter".data else p0
    let wp := if wl.contains '|' then pickOneList σ (splitOnChar '|' wl) 1 pos
      else (wl, pos)
    match ext.lookupWord wp.1 wp.2 with
    | some r => .ok r
    | none => .error (.fileNotFound, wp.2)
  else if ph = "sp".data ∨ ph = "space".data then .ok (" ".data, pos)
  else if ph = "vowel".data then
    match (if p0.isEmpty then some 1 else pyInt p0) with
    | none => .error (.valueError, pos)
    | some count => .ok (pickChars σ VOWELS 0 count.toNat pos)
  else if ph = "consonant".data then
    match (if p0.isEmpty then some 1 else pyInt p0) with
    | none => .error (.valueError, pos)
    | some count => .ok (pickChars σ CONSONANTS 0 count.toNat pos)
  else if ph = "symbol".data then .ok (pickOne σ SYMBOLS 1 ' ' pos)
  else if ph = "endpunctuation".data then .ok (pickOne σ END_PUNCTUATION 1 ' ' pos)
  else if ph = "sentencepunctuation".data then
    .ok (pickCharacter σ SENTENCE_PUNCTUATION 0 pos)
  else if ph = "number".data then
    match (if p0.isEmpty then some 9 else pyInt p0),
        (if p1.isEmpty then some 0 else pyInt p1),
        (if p2.isEmpty then some 1 else pyInt p2),
        (if p3.isEmpty then some 0 else pyInt p3) with
    | some maxV, some minV, some w, some dp =>
      if 0 < dp then
        let cp := randCeil σ maxV minV w pos
        let factor : Nat := 10 ^ dp.toNat
        .ok (fixedRepr (roundHalfEven (cp.1 * (factor : ℚ))) dp.toNat, cp.2)
      else
        let rp := rand σ maxV minV w pos
        .ok (intToStr rp.1, rp.2)
    | _, _, _, _ => .error (.valueError, pos)
  else if ph = "letter".data then
    match (if p0.isEmpty then some 1 else pyInt p0) with
    | none => .error (.valueError, pos)
    | some count => .ok (pickChars σ LETTERS 0 count.natAbs pos)
  else if ph = "smiley".data then .ok (pickOne σ SMILEYS 1 ' ' pos)
  else if ph = "keyboard".data then .ok (pickCharacter σ KEYBOARD 0 pos)
  else if ph = "numrow".data then .ok (pickCharacter σ NUMROW 0 pos)
  else if ph = "numrowfull".data then .ok (pickCharacter σ NUMROW_FULL 0 pos)
  else if ph = "row1".data then .ok (pickCharacter σ ROW1 0 pos)
  else if ph = "row1full".data then .ok (pickCharacter σ ROW1_FULL 0 pos)
  else if ph = "row2".data then .ok (pickCharacter σ ROW2 0 pos)
  else if ph = "row2full".data then .ok (pickCharacter σ ROW2_FULL 0 pos)
  else if ph = "row3".data then .ok (pickCharacter σ ROW3 0 pos)
  else if ph = "row3full".data then .ok (pickCharacter σ ROW3_FULL 0 pos)
  else if ph = "lefthand".data then .ok (pickCharacter σ LEFT_HAND 0 pos)
  else if ph = "righthand".data then .ok (pickCharacter σ RIGHT_HAND 0 pos)
  else if ph = "sequence".data then
    match (if p0.isEmpty then some 3 else pyInt p0) with
    | none => .error (.valueError, pos)
    | some len => .ok (getSequence σ len pos)
  else if ph = "ordinal".data then
    match (if p0.isEmpty then none else some (pyInt p0)) with
    | some none => .error (.valueError, pos)
    | some (some num) => .ok (getOrdinal num, pos)
    | none =>
      let rp := rand σ 99 1 1 pos
      .ok (getOrdinal rp.1, rp.2)
  else if ph = "phonetic".data then
    let wp := if p0.isEmpty then pickCharacter σ LETTERS 0 pos else (p0, pos)
    match (if p1.isEmpty then some 1 else pyInt p1) with
    | none => .error (.valueError, wp.2)
    | some style => .ok (getPhonetic wp.1 style, wp.2)
  else if ph = "pronounceable".data then .ok (ext.pronounceableWord pos)
  else if ph = "numberpattern".data then
    match (if p0.isEmpty then some 3 else pyInt p0) with
    | none => .error (.valueError, pos)
    | some len => getNumberPattern σ len pos
  else if ph = "asc".data then
    match p0 with
    | c :: _ => .ok (natToStr c.toNat, pos)
    | [] =>
      let rp := rand σ 255 32 1 pos
      .ok (intToStr rp.1, rp.2)
  else if ph = "chr".data then
    if p0.isEmpty then .ok ([], pos)
    else
      match pyInt p0 with
      | some code =>
        if 32 ≤ code ∧ code ≤ 126 then .ok ([Char.ofNat code.toNat], pos)
        else .ok ([], pos)
      | none => .ok ([], pos)
  else if ph = "longmonth".data then .ok (pickOne σ LONG_MONTHS 1 ' ' pos)
  else if ph = "shortmonth".data then .ok (pickOne σ SHORT_MONTHS 1 ' ' pos)
  else if ph = "longday".data then .ok (pickOne σ LONG_DAYS 1 ' ' pos)
  else if ph = "shortday".data then .ok (pickOne σ SHORT_DAYS 1 ' ' pos)
  else if ph = "numbercode".data then numberCode σ pos
  else
    match ext.lookupWord ph pos with
    | some r => .ok r
    | none => .ok (name, pos)

/-! ## Placeholder content parsing (`src/pyfwert/parser.py`) -/

/-- Worker for the top-level splits `_split_by_pipe` / `_split_by_plus`:
split at `sep` only at parenthesis depth 0; a split point always appends
the current piece (even when empty), a trailing empty piece is dropped. -/
def splitDepth0Go (sep : Char) : Int → Str → Str → List Str
  | _depth, current, [] => if current.isEmpty then [] else [current]
  | depth, current, c :: rest =>
    if c = '(' then splitDepth0Go sep (depth + 1) (current ++ [c]) rest
    else if c = ')' then splitDepth0Go sep (depth - 1) (current ++ [c]) rest
    else if c = sep ∧ depth = 0 then current :: splitDepth0Go sep depth [] rest
    else splitDepth0Go sep depth (current ++ [c]) rest

/-- `_split_by_pipe` / `_split_by_plus`: `parts if parts else [content]`. -/
def splitDepth0 (sep : Char) (content : Str) : List Str :=
  match splitDepth0Go sep 0 [] content with
  | [] => [content]
  | parts => parts

/-- Python `s.find(c)`: first index of `c`, `none` for -1. -/
def findIdx (c : Char) (s : Str) : Option Nat := s.findIdx? (· = c)

/-- Python `s.find(c, start)`: first index of `c` at or after `start`. -/
def findIdxFrom (c : Char) (s : Str) (start : Nat) : Option Nat :=
  ((s.drop start).findIdx? (· = c)).map (· + start)

/-- Substring `s[a:b]` for indices already known to be in order. -/
def extract (s : Str) (a b : Nat) : Str := (s.drop a).take (b - a)

/-- Parameter-list parsing shared by base and modifier specs:
split on every comma, each piece whitespace-stripped then quote-stripped. -/
def parseParams (paramStr : Str) : List Str :=
  (splitOnChar ',' paramStr).map (fun p => stripChars ['"'] (stripStr p))

/-- Extraction of the first `[`..`]` qualifier pair, shared verbatim by
the modifier specs and the base in the source: an unparsable qualifier
is dropped but its bracket span is still removed. -/
def stripQualifier (spec : Str) : Str × Option Int :=
  match findIdx '[' spec with
  | none => (spec, none)
  | some qs =>
    match findIdxFrom ']' spec qs with
    | none => (spec, none)
    | some qe =>
      (spec.take qs ++ spec.drop (qe + 1), pyInt (extract spec (qs + 1) qe))

/-- One modifier spec `name[N](p1,p2)`: first `[`..`]` pair holds the
qualifier, then the first `(`..`)` pair holds the parameters.  This is
the modifier branch of `parse_placeholder_content` and, identically,
`PasswordGenerator._parse_modifier_string`. -/
def parseModifierSpec (spec : Str) : Str × List Str × Option Int :=
  let mq := stripQualifier spec
  let m := mq.1
  match findIdx '(' m with
  | none => (m, [], mq.2)
  | some ps =>
    match findIdxFrom ')' m ps with
    | none => (m, [], mq.2)
    | some pe => (m.take ps, parseParams (extract m (ps + 1) pe), mq.2)

/-- Parsed form of one placeholder's content. -/
structure Parsed where
  name : Str
  params : List Str
  modifiers : List (Str × List Str × Option Int)
  qualifier : Option Int
  alternatives : Option (List Str)
deriving Repr, DecidableEq

/-- `parse_placeholder_content(content)`. -/
def parsePlaceholderContent (content : Str) : Parsed :=
  let alts := splitDepth0 '|' content
  if 1 < alts.length then
    { name := [], params := [], modifiers := [], qualifier := none,
      alternatives := some alts }
  else
    let parts := splitDepth0 '+' content
    let base := parts.headD []
    let modifiers := parts.tail.map parseModifierSpec
    let bq := stripQualifier base
    let b := bq.1
    match findIdx '(' b with
    | none =>
      { name := stripStr b, params := [], modifiers := modifiers,
        qualifier := bq.2, alternatives := none }
    | some ps =>
      match findIdxFrom ')' b ps with
      | none =>
        { name := stripStr b, params := [], modifiers := modifiers,
          qualifier := bq.2, alternatives := none }
      | some pe =>
        { name := stripStr (b.take ps),
          params := parseParams (extract b (ps + 1) pe),
          modifiers := modifiers, qualifier := bq.2, alternatives := none }

/-! ## Generator (`src/pyfwert/generator.py`) -/

/-- `PasswordGenerator._escape_pattern`: apply the escape sequences in
dict order. -/
def escapePattern (pattern : Str) : Str :=
  ESCAPE_SEQUENCES.foldl (fun acc pr => replaceAll pr.1 pr.2 acc) pattern

/-- `PasswordGenerator._unescape`: substitute every sentinel token back
to its character, in dict order. -/
def unescape (text : Str) : Str :=
  UNESCAPE_SEQUENCES.foldl (fun acc pr => replaceAll pr.1 pr.2 acc) text

/-- The replacement table of `PasswordGenerator._escape_value`. -/
def ESCAPE_VALUE_RULES : List (Str × Str) :=
  [("\\".data, "#sla#".data), ("+".data, "#pls#".data),
   ("\x7b".data, "#lbr#".data), ("\x7d".data, "#rbr#".data),
   ("[".data, "#lba#".data), ("]".data, "#rba#".data),
   ("(".data, "#lpa#".data), (")".data, "#rpa#".data),
   ("|".data, "#pip#".data)]

/-- `PasswordGenerator._escape_value`. -/
def escapeValue (value : Str) : Str :=
  ESCAPE_VALUE_RULES.foldl (fun acc pr => replaceAll pr.1 pr.2 acc) value

/-- `re.sub(r'\[\d+\]', '', content)`: remove every `[digits]` span,
scanning left to right. -/
def removeQualTags : Str → Str
  | [] => []
  | c :: rest =>
    if c = '[' then
      let ds := rest.takeWhile pyIsDigitChar
      let r2 := rest.dropWhile pyIsDigitChar
      if ¬ ds.isEmpty ∧ r2.headD ' ' = ']' ∧ ¬ r2.isEmpty then
        removeQualTags r2.tail
      else '[' :: removeQualTags rest
    else c :: removeQualTags rest
termination_by s => s.length
decreasing_by
  all_goals simp only [List.length_cons, List.length_tail]
  · exact Nat.lt_succ_of_le (le_trans (Nat.sub_le _ _)
      (List.dropWhile_suffix pyIsDigitChar).length_le)
  all_goals omega

/-- The per-attempt state of `PasswordGenerator`: the backreference
store, its counter, and the draw-stream position. -/
structure GState where
  backrefs : List (Nat × Str)
  counter : Nat
  pos : Nat
deriving Repr, DecidableEq

/-- Dictionary lookup in the backreference store. -/
def lookupBackref (st : GState) (k : Nat) : Option Str :=
  (st.backrefs.find? (fun p => p.1 = k)).map (·.2)

/-- Brace matching of `_process_pattern`: called on the text after a
`[`-opening brace with depth 1; yields the content between the braces
and the text after the matching close, or `none` when unmatched. -/
def findMatching : Nat → Str → Str → Option (Str × Str)
  | _depth, _acc, [] => none
  | depth, acc, c :: rest =>
    if c = '\x7b' then findMatching (depth + 1) (acc ++ [c]) rest
    else if c = '\x7d' then
      if depth = 1 then some (acc, rest)
      else findMatching (depth - 1) (acc ++ [c]) rest
    else findMatching depth (acc ++ [c]) rest

/-- The modifier-span scan of `_process_pattern`: characters up to the
next `+`, `\x7b`, space, tab or `.` at parenthesis depth 0; returns the
span and the remainder starting at the stopping character. -/
def scanModSpan : Int → Str → Str × Str
  | _d, [] => ([], [])
  | d, c :: rest =>
    if c = '(' then
      let r := scanModSpan (d + 1) rest
      (c :: r.1, r.2)
    else if c = ')' then
      let r := scanModSpan (d - 1) rest
      (c :: r.1, r.2)
    else if d = 0 ∧ (c = '+' ∨ c = '\x7b' ∨ c = ' ' ∨ c = '\t' ∨ c = '.') then
      ([], c :: rest)
    else
      let r := scanModSpan d rest
      (c :: r.1, r.2)

/-- Python `pattern.find("]", j)` split: text before the first `]` and
text after it. -/
def splitAtChar (c : Char) (s : Str) : Option (Str × Str) :=
  (findIdx c s).map (fun i => (s.take i, s.drop (i + 1)))

/-- Result type of the resolver: value and next state, or a raised
exception with the position it was raised at. -/
abbrev GRes := Except (PyErr × Nat) (Str × GState)

mutual

/-- `PasswordGenerator._process_pattern`: scan for brace spans, resolve
inside-out, then apply the post-brace `[N]` qualifier and `+modifier`
chain; unmatched braces and all other characters are literal.  `fuel`
bounds the recursion of the embedding; the python source recurses on
ever-shorter strings without an explicit bound. -/
def processPattern (σ : Nat → Nat) (ext : Ext) :
    Nat → GState → Str → GRes
  | 0, st, _ => .error (.fuel, st.pos)
  | _fuel + 1, st, [] => .ok ([], st)
  | fuel + 1, st, c :: rest =>
    if c = '\x7b' then
      match findMatching 1 [] rest with
      | none => (processPattern σ ext fuel st rest).map
          (fun rs => ('\x7b' :: rs.1, rs.2))
      | some (content, after) =>
        match processPattern σ ext fuel st content with
        | .error e => .error e
        | .ok (pc, st1) =>
          match resolvePlaceholderContent σ ext fuel st1 pc with
          | .error e => .error e
          | .ok (v0, st2) =>
            let q3 : Str × GState × Str :=
              match after with
              | '[' :: r =>
                match splitAtChar ']' r with
                | some (qs, tail) =>
                  match pyInt qs with
                  | some q =>
                    let d := rand σ 99 0 1 st2.pos
                    (if q ≤ d.1 then [] else v0, { st2 with pos := d.2 }, tail)
                  | none => (v0, st2, tail)
                | none => (v0, st2, after)
              | _ => (v0, st2, after)
            match modChain σ ext fuel q3.2.1 q3.1 q3.2.2 with
            | .error e => .error e
            | .ok (v2, st4, rest2) =>
              (processPattern σ ext fuel st4 rest2).map
                (fun rs => (v2 ++ rs.1, rs.2))
    else
      (processPattern σ ext fuel st rest).map (fun rs => (c :: rs.1, rs.2))

/-- The post-brace `while ... == "+"` modifier chain of
`_process_pattern`: parse one spec, resolve placeholder parameters,
gate on the spec's own qualifier, apply with unescape/re-escape, and
swallow a raised `ValueError` (unknown modifier or bad parameter),
keeping the value unchanged. -/
def modChain (σ : Nat → Nat) (ext : Ext) :
    Nat → GState → Str → Str → Except (PyErr × Nat) (Str × GState × Str)
  | 0, st, _, _ => .error (.fuel, st.pos)
  | fuel + 1, st, v, after =>
    match after with
    | '+' :: rest =>
      let sm := scanModSpan 0 rest
      if sm.1.isEmpty then modChain σ ext fuel st v sm.2
      else
        let spec := parseModifierSpec sm.1
        match processParams σ ext fuel false st spec.2.1 with
        | .error e => .error e
        | .ok (pp, st1) =>
          let gate : Bool × GState :=
            match spec.2.2 with
            | none => (true, st1)
            | some q =>
              let d := rand σ 99 0 1 st1.pos
              (d.1 < q, { st1 with pos := d.2 })
          if gate.1 then
            match applyModifier σ ext (unescape v) spec.1 (pp.map unescape)
                gate.2.pos with
            | .ok (modified, pos') =>
              modChain σ ext fuel { gate.2 with pos := pos' }
                (escapeValue modified) sm.2
            | .error (.valueError, pos') =>
              modChain σ ext fuel { gate.2 with pos := pos' } v sm.2
            | .error e => .error e
          else modChain σ ext fuel gate.2 v sm.2
    | _ => .ok (v, st, after)

/-- Placeholder parameters that contain a brace are resolved through the
pattern scanner; with `unesc` set the resolved text is also unescaped
(the in-content modifier loop does, the post-brace chain does not). -/
def processParams (σ : Nat → Nat) (ext : Ext) :
    Nat → Bool → GState → List Str → Except (PyErr × Nat) (List Str × GState)
  | 0, _, st, _ => .error (.fuel, st.pos)
  | _fuel + 1, _unesc, st, [] => .ok ([], st)
  | fuel + 1, unesc, st, p :: ps =>
    if p.contains '\x7b' then
      match processPattern σ ext fuel st p with
      | .error e => .error e
      | .ok (v, st1) =>
        let v := if unesc then unescape v else v
        match processParams σ ext fuel unesc st1 ps with
        | .error e => .error e
        | .ok (vs, st2) => .ok (v :: vs, st2)
    else
      match processParams σ ext fuel unesc st ps with
      | .error e => .error e
      | .ok (vs, st2) => .ok (p :: vs, st2)

/-- `PasswordGenerator._resolve_placeholder_content`: backreference
short-circuit, alternatives pick, standalone qualifier, then the
literal-grouping or dispatch path via `resolveContentCore`. -/
def resolvePlaceholderContent (σ : Nat → Nat) (ext : Ext) :
    Nat → GState → Str → GRes
  | 0, st, _ => .error (.fuel, st.pos)
  | fuel + 1, st, content =>
    if ("$W".data).isPrefixOf content then
      match pyInt (content.drop 2) with
      | some refNum =>
        match (if 0 ≤ refNum then lookupBackref st refNum.toNat else none) with
        | some v => .ok (v, st)
        | none => .ok ([], st)
      | none => .ok ([], st)
    else
      let parsed := parsePlaceholderContent content
      match parsed.alternatives with
      | some alts =>
        let ch := pickOneList σ alts 1 st.pos
        let st1 : GState := { st with pos := ch.2 }
        if ch.1.contains '\x7b' then processPattern σ ext fuel st1 ch.1
        else .ok (ch.1, st1)
      | none =>
        match parsed.qualifier with
        | some q =>
          let d := rand σ 99 0 1 st.pos
          if q ≤ d.1 then .ok ([], { st with pos := d.2 })
          else resolveContentCore σ ext fuel { st with pos := d.2 } content parsed
        | none => resolveContentCore σ ext fuel st content parsed

/-- The tail of `_resolve_placeholder_content` after the qualifier
check: the literal-grouping path (empty or whitespace-led name) stores
and returns the content; otherwise the builtin dispatch runs, the
in-content modifier loop transforms the value, and the escaped result
is stored under the next backreference key. -/
def resolveContentCore (σ : Nat → Nat) (ext : Ext) :
    Nat → GState → Str → Parsed → GRes
  | 0, st, _, _ => .error (.fuel, st.pos)
  | fuel + 1, st, content, parsed =>
    if parsed.name.isEmpty ∨
        (content ≠ [] ∧ (content.headD ' ' = ' ' ∨ content.headD ' ' = '\t')) then
      let resultContent :=
        if parsed.qualifier.isSome then removeQualTags content else content
      .ok (resultContent,
        { st with counter := st.counter + 1,
                  backrefs := (st.counter + 1, resultContent) :: st.backrefs })
    else
      match resolvePlaceholder σ ext parsed.name parsed.params st.pos with
      | .error e => .error e
      | .ok (value, pos1) =>
        match modLoop σ ext fuel { st with pos := pos1 } value parsed.modifiers with
        | .error e => .error e
        | .ok (value, st2) =>
          let value := escapeValue value
          .ok (value,
            { st2 with counter := st2.counter + 1,
                       backrefs := (st2.counter + 1, value) :: st2.backrefs })

/-- The in-content modifier loop of `_resolve_placeholder_content`:
each modifier gated by its own qualifier, placeholder-bearing
parameters resolved and unescaped, a raised `ValueError` skipped. -/
def modLoop (σ : Nat → Nat) (ext : Ext) :
    Nat → GState → Str → List (Str × List Str × Option Int) →
    Except (PyErr × Nat) (Str × GState)
  | 0, st, _, _ => .error (.fuel, st.pos)
  | _fuel + 1, st, v, [] => .ok (v, st)
  | fuel + 1, st, v, (mname, mparams, mqual) :: mods =>
    let gate : Bool × GState :=
      match mqual with
      | none => (true, st)
      | some q =>
        let d := rand σ 99 0 1 st.pos
        (d.1 < q, { st with pos := d.2 })
    if gate.1 then
      match processParams σ ext fuel true gate.2 mparams with
      | .error e => .error e
      | .ok (pp, st1) =>
        match applyModifier σ ext v mname pp st1.pos with
        | .ok (v', pos') => modLoop σ ext fuel { st1 with pos := pos' } v' mods
        | .error (.valueError, pos') =>
          modLoop σ ext fuel { st1 with pos := pos' } v mods
        | .error e => .error e
    else modLoop σ ext fuel gate.2 v mods

end

/-- The double-space collapse loop of `_generate_from_pattern`; each
round of the source loop strictly shortens the string, so fuel
`length + 1` always reaches the fixpoint. -/
def collapseGo : Nat → Str → Str
  | 0, s => s
  | f + 1, s =>
    if containsSub "  ".data s then
      collapseGo f (replaceAll "  ".data " ".data s)
    else s

def collapseSpaces (s : Str) : Str := collapseGo (s.length + 1) s

/-- `PasswordGenerator._generate_from_pattern`: fresh backreference
store, escape, recursive resolution, unescape, whitespace collapse,
strip. -/
def generateFromPattern (σ : Nat → Nat) (ext : Ext) (fuel : Nat)
    (pattern : Str) (pos : Nat) : GRes :=
  match processPattern σ ext fuel { backrefs := [], counter := 0, pos := pos }
      (escapePattern pattern) with
  | .error e => .error e
  | .ok (result, st) => .ok (stripStr (collapseSpaces (unescape result)), st)

/-! ## Concrete instances used by counterexamples and witnesses -/

/-- The all-zero draw stream. -/
def sigma0 : Nat → Nat := fun _ => 0

/-- A concrete external-collaborator instance: no word lists configured,
identity number-to-words, a fixed pronounceable word. -/
def extTest : Ext where
  lookupWord := fun _ _ => none
  numberToWords := fun s => s
  pronounceableWord := fun p => ("bora".data, p)
  randomPattern := fun p => ([], p)

/-! ## Helper lemmas -/

/-- Swapping in an element and re-consing the old head is a permutation:
`t.getD k d :: t.set k a ~ a :: t`. -/
theorem cons_getD_set_perm {α : Type} (t : List α) (k : Nat) (a d : α)
    (h : k < t.length) : ((t.getD k d) :: t.set k a).Perm (a :: t) := by
  induction t generalizing k with
  | nil => simp at h
  | cons b t ih =>
    cases k with
    | zero => simpa using List.Perm.swap a b t
    | succ k =>
      have hk : k < t.length := by simpa using h
      have e1 : ((b :: t).getD (k + 1) d) :: (b :: t).set (k + 1) a
          = (t.getD k d) :: b :: t.set k a := by simp
      rw [e1]
      have p1 : ((t.getD k d) :: b :: t.set k a).Perm
          (b :: (t.getD k d) :: t.set k a) := List.Perm.swap _ _ _
      have p2 : (b :: (t.getD k d) :: t.set k a).Perm (b :: a :: t) :=
        (ih k hk).cons b
      have p3 : (b :: a :: t).Perm (a :: b :: t) := List.Perm.swap _ _ _
      exact (p1.trans p2).trans p3

/-- A simultaneous two-index swap permutes the list. -/
theorem set_swap_perm {α : Type} (l : List α) (i j : Nat) (d : α)
    (hi : i < l.length) (hj : j < l.length) :
    ((l.set i (l.getD j d)).set j (l.getD i d)).Perm l := by
  induction l generalizing i j with
  | nil => simp at hi
  | cons a t ih =>
    cases i with
    | zero =>
      cases j with
      | zero => simp
      | succ m =>
        have hm : m < t.length := by simpa using hj
        simpa using cons_getD_set_perm t m a d hm
    | succ n =>
      cases j with
      | zero =>
        have hn : n < t.length := by simpa using hi
        simpa using cons_getD_set_perm t n a d hn
      | succ m =>
        have hn : n < t.length := by simpa using hi
        have hm : m < t.length := by simpa using hj
        simpa using (ih n m hn hm).cons a

/-- The scramble loop preserves the character multiset and the length. -/
theorem scrambleGo_perm (σ : Nat → Nat) (n : Nat) (chars : Str) (pos : Nat)
    (h2 : 2 ≤ chars.length) :
    (scrambleGo σ n chars pos).1.Perm chars ∧
      (scrambleGo σ n chars pos).1.length = chars.length := by
  induction n generalizing chars pos with
  | zero => exact ⟨List.Perm.refl _, rfl⟩
  | succ n ih =>
    have hmax : (1 : Int) ≤ (chars.length : Int) - 1 := by
      have : (2 : Int) ≤ (chars.length : Int) := by exact_mod_cast h2
      omega
    have hr1 := @rand_mem σ ((chars.length : Int) - 1) 0 1 pos
      (by omega) (by omega)
    have hr2 := @rand_mem σ ((chars.length : Int) - 1) 0 1
      (rand σ ((chars.length : Int) - 1) 0 1 pos).2 (by omega) (by omega)
    set i1 := (rand σ ((chars.length : Int) - 1) 0 1 pos).1 with hi1
    set i2 := (rand σ ((chars.length : Int) - 1) 0 1
      (rand σ ((chars.length : Int) - 1) 0 1 pos).2).1 with hi2
    have hi1l : i1.toNat < chars.length := by omega
    have hi2l : i2.toNat < chars.length := by omega
    have hperm := set_swap_perm chars i1.toNat i2.toNat ' ' hi1l hi2l
    have hlen : ((chars.set i1.toNat (chars.getD i2.toNat ' ')).set i2.toNat
        (chars.getD i1.toNat ' ')).length = chars.length := by simp
    have h2' : 2 ≤ ((chars.set i1.toNat (chars.getD i2.toNat ' ')).set i2.toNat
        (chars.getD i1.toNat ' ')).length := by omega
    have := ih ((chars.set i1.toNat (chars.getD i2.toNat ' ')).set i2.toNat
      (chars.getD i1.toNat ' '))
      (rand σ ((chars.length : Int) - 1) 0 1
        (rand σ ((chars.length : Int) - 1) 0 1 pos).2).2 h2'
    refine ⟨?_, ?_⟩
    · show (scrambleGo σ (n + 1) chars pos).1.Perm chars
      simp only [scrambleGo, ← hi1, ← hi2]
      exact (this.1).trans hperm
    · show (scrambleGo σ (n + 1) chars pos).1.length = chars.length
      simp only [scrambleGo, ← hi1, ← hi2]
      omega

/-! ## Claim theorems -/

/-- C4: for all integers `min_val <= max_val` with `max_val != 0`, any
weight and `decimal_places = 0`, `rand` returns an integer in
`[min_val, max_val]` for every draw stream; `weight = 0` behaves as
`weight = 1`; `max_val = 0` is treated as `max_val = 9`. -/
theorem c4_rand_range_weight_defaults (σ : Nat → Nat)
    (maxV minV w : Int) (pos : Nat) (M2 m2 w2 : Int) (p2 : Nat)
    (h1 : minV ≤ maxV) (h2 : maxV ≠ 0) :
    (minV ≤ (rand σ maxV minV w pos).1 ∧ (rand σ maxV minV w pos).1 ≤ maxV) ∧
    rand σ M2 m2 0 p2 = rand σ M2 m2 1 p2 ∧
    rand σ 0 m2 w2 p2 = rand σ 9 m2 w2 p2 := by
  refine ⟨rand_mem h1 h2, ?_, ?_⟩ <;> rfl

/-- Witness for C4 at `max = 99`, `min = 0`, `weight = 1`. -/
theorem c4_rand_range_weight_defaults_witness :
    ((0 : Int) ≤ 99 ∧ (99 : Int) ≠ 0) ∧
    ((0 ≤ (rand sigma0 99 0 1 0).1 ∧ (rand sigma0 99 0 1 0).1 ≤ 99) ∧
      rand sigma0 5 2 0 7 = rand sigma0 5 2 1 7 ∧
      rand sigma0 0 2 3 7 = rand sigma0 9 2 3 7) :=
  ⟨⟨by norm_num, by norm_num⟩,
    c4_rand_range_weight_defaults sigma0 99 0 1 0 5 2 3 7 (by norm_num)
      (by norm_num)⟩

/-- C7: `scramble_word` on an input of length at least 2 preserves the
length and the character multiset, for every draw stream and any number
of swaps. -/
theorem c7_scramble_preserves (σ : Nat → Nat) (w : Str) (times : Int)
    (pos : Nat) (h2 : 2 ≤ w.length) (hn : 0 ≤ times) :
    (scrambleWord σ w times pos).1.length = w.length ∧
      (scrambleWord σ w times pos).1.Perm w := by
  unfold scrambleWord
  rw [if_neg (by omega)]
  have h := scrambleGo_perm σ times.toNat w pos h2
  exact ⟨h.2, h.1⟩

/-- Witness for C7 on `"abcd"` with 3 swaps under the all-zero stream. -/
theorem c7_scramble_preserves_witness :
    (2 ≤ ("abcd".data).length ∧ (0 : Int) ≤ 3) ∧
    ((scrambleWord sigma0 "abcd".data 3 0).1.length = ("abcd".data).length ∧
      (scrambleWord sigma0 "abcd".data 3 0).1.Perm "abcd".data) :=
  ⟨⟨by decide, by decide⟩,
    c7_scramble_preserves sigma0 "abcd".data 3 0 (by decide) (by decide)⟩

/-- C10: `apply_modifier` on the empty word returns the empty word for
every modifier name and parameter list — including names outside the
dispatch table — and never raises; the unknown-modifier failure can only
occur on non-empty input. -/
theorem c10_empty_word_passthrough (σ : Nat → Nat) (ext : Ext) (name : Str)
    (params : List Str) (pos : Nat) :
    applyModifier σ ext [] name params pos = .ok ([], pos) := rfl

/-- C9: the `romannumeral` modifier maps `"4"` to `"IV"`, `"9"` to
`"IX"`, `"1994"` to `"MCMXCIV"`, and returns any input that does not
parse as an integer unchanged. -/
theorem c9_romannumeral (σ : Nat → Nat) (ext : Ext) (pos : Nat) (w : Str)
    (hw : pyInt w = none) :
    applyModifier σ ext "4".data "romannumeral".data [] pos =
      .ok ("IV".data, pos) ∧
    applyModifier σ ext "9".data "romannumeral".data [] pos =
      .ok ("IX".data, pos) ∧
    applyModifier σ ext "1994".data "romannumeral".data [] pos =
      .ok ("MCMXCIV".data, pos) ∧
    applyModifier σ ext w "romannumeral".data [] pos = .ok (w, pos) := by
  refine ⟨rfl, rfl, rfl, ?_⟩
  cases w with
  | nil => rfl
  | cons c t =>
    have hred : applyModifier σ ext (c :: t) "romannumeral".data [] pos =
        (match pyInt (c :: t) with
          | some n => Except.ok (toRoman n, pos)
          | none => Except.ok (c :: t, pos)) := rfl
    rw [hred, hw]

/-- Witness for C9 with the non-numeric input `"abc"`. -/
theorem c9_romannumeral_witness :
    pyInt "abc".data = none ∧
    applyModifier sigma0 extTest "abc".data "romannumeral".data [] 0 =
      .ok ("abc".data, 0) :=
  ⟨by decide, (c9_romannumeral sigma0 extTest 0 "abc".data (by decide)).2.2.2⟩

/-! ## Character-class lemmas for the pig-latin claim -/

theorem pyIsLower_toNat {d : Char} (h : pyIsLowerChar d = true) :
    97 ≤ d.toNat ∧ d.toNat ≤ 122 := by
  simp only [pyIsLowerChar, Bool.and_eq_true, decide_eq_true_eq] at h
  exact ⟨h.1, h.2⟩

theorem pyIsUpper_toNat {d : Char} (h : pyIsUpperChar d = true) :
    65 ≤ d.toNat ∧ d.toNat ≤ 90 := by
  simp only [pyIsUpperChar, Bool.and_eq_true, decide_eq_true_eq] at h
  exact ⟨h.1, h.2⟩

/-- Uppercasing fixes an already-uppercase character. -/
theorem pyUpperChar_of_upper {c : Char} (h : pyIsUpperChar c = true) :
    pyUpperChar c = c := by
  obtain ⟨h1, h2⟩ := pyIsUpper_toNat h
  unfold pyUpperChar
  rw [if_neg]
  intro hl
  obtain ⟨h3, _⟩ := pyIsLower_toNat hl
  omega

/-- Uppercasing an ASCII letter yields an uppercase letter. -/
theorem pyUpperChar_upper_of_alpha {d : Char} (h : pyIsAlphaChar d = true) :
    pyIsUpperChar (pyUpperChar d) = true := by
  unfold pyIsAlphaChar at h
  rcases Bool.or_eq_true _ _ |>.mp h with hu | hl
  · rw [pyUpperChar_of_upper hu]
    exact hu
  · obtain ⟨h1, h2⟩ := pyIsLower_toNat hl
    unfold pyUpperChar
    rw [if_pos hl]
    generalize hd : d.toNat = n at h1 h2
    interval_cases n <;> decide

/-- A string with no occurrence of the separator splits to itself. -/
theorem splitOnChar_no_sep {sep : Char} {w : Str}
    (h : w.contains sep = false) : splitOnChar sep w = [w] := by
  induction w with
  | nil => rfl
  | cons c rest ih =>
    simp only [List.contains_cons, Bool.or_eq_false_iff, beq_eq_false_iff_ne,
      ne_eq] at h
    rw [splitOnChar, ih h.2]
    show (if c = sep then [] :: rest :: [] else (c :: rest) :: []) = [c :: rest]
    rw [if_neg (fun he => h.1 he.symm)]

/-- C8 counterexample: for the single word `"X1y"` the input initial is
uppercase but the pig-latin output initial `'1'` is not, so the
capitalization of the first letter is not mirrored. -/
theorem c8_counterexample :
    pigLatin "X1y".data = "1yxay".data ∧
    pyIsUpperChar (("X1y".data).headD ' ') = true ∧
    pyIsUpperChar ((pigLatin "X1y".data).headD ' ') = false := by decide

/-- C8 amended: `pig_latin("apple") = "appleyay"`,
`pig_latin("hello") = "ellohay"`, and for every single word made of
ASCII letters an uppercase input initial yields an uppercase output
initial. -/
theorem c8_pig_latin (w : Str)
    (hletters : w.all pyIsAlphaChar = true)
    (hsingle : w.contains ' ' = false)
    (hup : pyIsUpperChar (w.headD ' ') = true) :
    pigLatin "apple".data = "appleyay".data ∧
    pigLatin "hello".data = "ellohay".data ∧
    pyIsUpperChar ((pigLatin w).headD ' ') = true := by
  refine ⟨by decide, by decide, ?_⟩
  unfold pigLatin
  rw [splitOnChar_no_sep hsingle]
  simp only [List.map_cons, List.map_nil, joinChar]
  cases w with
  | nil => simpa using hup
  | cons c t =>
    have hc : pyIsUpperChar c = true := by simpa using hup
    have hcu : pyUpperChar c = c := pyUpperChar_of_upper hc
    have hred : pigLatinWord (c :: t) =
        (if ("aeiou".data).contains (pyLowerChar c) = true then
          (match (c :: t) ++ "yay".data with
            | [] => ([] : Str)
            | d :: drest => pyUpperChar d :: pyLower drest)
        else
          (match t ++ [c] ++ "ay".data with
            | [] => ([] : Str)
            | d :: drest => pyUpperChar d :: pyLower drest)) := by
      dsimp only [pigLatinWord]
      rw [if_pos hc]
      by_cases hv : (("aeiou".data).contains (pyLowerChar c)) = true
      · rw [if_pos hv, if_pos hv]
        rfl
      · rw [if_neg hv, if_neg hv]
        rfl
    rw [hred]
    by_cases hv : (("aeiou".data).contains (pyLowerChar c)) = true
    · rw [if_pos hv]
      simp only [List.cons_append, List.headD_cons]
      rw [hcu]
      exact hc
    · rw [if_neg hv]
      cases t with
      | nil =>
        simp only [List.nil_append, List.singleton_append, List.headD_cons]
        rw [hcu]
        exact hc
      | cons d t2 =>
        have hd : pyIsAlphaChar d = true := by
          simp only [List.all_cons, Bool.and_eq_true] at hletters
          exact hletters.2.1
        simp only [List.cons_append, List.append_assoc, List.headD_cons]
        exact pyUpperChar_upper_of_alpha hd

/-- Witness for C8 on the word `"Hello"`. -/
theorem c8_pig_latin_witness :
    ("Hello".data.all pyIsAlphaChar = true ∧
      "Hello".data.contains ' ' = false ∧
      pyIsUpperChar (("Hello".data).headD ' ') = true) ∧
    pyIsUpperChar ((pigLatin "Hello".data).headD ' ') = true :=
  ⟨⟨by decide, by decide, by decide⟩,
    (c8_pig_latin "Hello".data (by decide) (by decide) (by decide)).2.2⟩

/-! ## Replace-identity lemmas for the escaper claim -/

theorem replaceAllGo_id {o : Char} {old : Str} (new : Str) (f : Nat)
    (s : Str) (h : containsSub (o :: old) s = false) :
    replaceAllGo o old new f s = s := by
  induction s generalizing f with
  | nil => cases f <;> rfl
  | cons c rest ih =>
    cases f with
    | zero => rfl
    | succ f =>
      simp only [containsSub, Bool.or_eq_false_iff] at h
      rw [replaceAllGo, if_neg (by simp [h.1]), ih f h.2]

theorem replaceAll_id {old : Str} (new : Str) (s : Str) (hne : old ≠ [])
    (h : containsSub old s = false) : replaceAll old new s = s := by
  cases old with
  | nil => exact absurd rfl hne
  | cons o old => exact replaceAllGo_id new s.length s h

/-- A fold of substring replacements over patterns absent from `s`
leaves `s` unchanged. -/
theorem foldl_replace_id (rules : List (Str × Str)) (s : Str)
    (h : ∀ r ∈ rules, r.1 ≠ [] ∧ containsSub r.1 s = false) :
    rules.foldl (fun acc pr => replaceAll pr.1 pr.2 acc) s = s := by
  induction rules with
  | nil => rfl
  | cons r rs ih =>
    have hr := h r (List.mem_cons_self r rs)
    simp only [List.foldl_cons, replaceAll_id r.2 s hr.1 hr.2]
    exact ih (fun q hq => h q (List.mem_cons_of_mem r hq))

theorem not_containsSub_of_head_not_mem {o : Char} {s : Str} (old : Str)
    (h : o ∉ s) : containsSub (o :: old) s = false := by
  induction s with
  | nil => rfl
  | cons c rest ih =>
    simp only [List.mem_cons, not_or] at h
    simp only [containsSub, Bool.or_eq_false_iff]
    constructor
    · simp only [List.isPrefixOf, Bool.and_eq_false_iff]
      exact Or.inl (by simpa [beq_eq_false_iff_ne] using h.1)
    · exact ih h.2

/-- The reserved pattern characters: the characters the escaper
replaces (first components of the value-escape table). -/
def reservedChars : Str := joinAll (ESCAPE_VALUE_RULES.map Prod.fst)

/-- The sentinel tokens of the escaper. -/
def sentinelTokens : List Str := UNESCAPE_SEQUENCES.map Prod.fst

/-- C6 counterexample: `"#sla#"` is built only from literal characters
(none of the reserved symbols), yet the escape/unescape round trip
turns it into `"\"`. -/
theorem c6_counterexample :
    ("#sla#".data).all (fun c => !(reservedChars.contains c)) = true ∧
    unescape (escapePattern "#sla#".data) ≠ "#sla#".data := by decide

/-- C6 amended: on text containing none of the reserved symbols and no
sentinel token as a substring, unescape after escape is the identity. -/
theorem c6_escape_unescape_roundtrip (text : Str)
    (hres : text.all (fun c => !(reservedChars.contains c)) = true)
    (hsent : sentinelTokens.all (fun tok => !(containsSub tok text)) = true) :
    unescape (escapePattern text) = text := by
  have hbs : '\\' ∉ text := by
    intro hmem
    have hc2 : reservedChars.contains '\\' = true := by decide
    have hcontra : (!(reservedChars.contains '\\')) = true :=
      List.all_eq_true.mp hres '\\' hmem
    rw [hc2] at hcontra
    exact absurd hcontra (by decide)
  have hesc : escapePattern text = text := by
    apply foldl_replace_id
    intro r hr
    fin_cases hr <;>
      exact ⟨by decide, not_containsSub_of_head_not_mem _ hbs⟩
  have hune : unescape text = text := by
    apply foldl_replace_id
    intro r hr
    refine ⟨?_, ?_⟩
    · fin_cases hr <;> decide
    · have hmem : r.1 ∈ sentinelTokens :=
        List.mem_map.mpr ⟨r, hr, rfl⟩
      have := List.all_eq_true.mp hsent r.1 hmem
      simpa using this
  rw [hesc, hune]

/-- Witness for C6 on `"Hello World!"`. -/
theorem c6_escape_unescape_roundtrip_witness :
    (("Hello World!".data).all (fun c => !(reservedChars.contains c)) = true ∧
      sentinelTokens.all (fun tok => !(containsSub tok "Hello World!".data)) = true) ∧
    unescape (escapePattern "Hello World!".data) = "Hello World!".data :=
  ⟨⟨by decide, by decide⟩,
    c6_escape_unescape_roundtrip "Hello World!".data (by decide) (by decide)⟩

/-- The names of the `apply_modifier` dispatch table, in source order. -/
def KNOWN_MODIFIERS : List Str :=
  ["a".data, "bracket".data, "num2word".data, "num2words".data,
   "reverse".data, "ucase".data, "uppercase".data, "lcase".data,
   "lowercase".data, "propercase".data, "sentencecase".data,
   "obscure".data, "replace".data, "randomcase".data, "scramble".data,
   "piglatin".data, "repeat".data, "right".data, "left".data,
   "trim".data, "format".data, "mid".data, "swap".data,
   "romannumeral".data, "hide".data, "quote".data, "stutter".data,
   "random".data]

/-- C5 counterexample: a malformed numeric parameter does not fall back
to the documented default — `resolve_placeholder("number", ["abc"])`
raises `ValueError` instead of drawing with the default `max = 9`. -/
theorem c5_counterexample :
    resolvePlaceholder sigma0 extTest "number".data ["abc".data] 0 =
      .error (.valueError, 0) := by decide

/-- C5 amended: an *empty* numeric parameter falls back to the
documented default (`number` draws with `max = 9`); a malformed
(non-empty, non-integer) parameter raises `ValueError`: in a builtin
placeholder the error propagates (failing the generation attempt),
while for a modifier the resolver catches it and skips the modifier,
leaving the value unchanged, so resolution itself does not fail. -/
theorem c5_malformed_numeric_parameter (σ : Nat → Nat) (ext : Ext)
    (st : GState) (pos : Nat) :
    resolvePlaceholder σ ext "number".data [] pos =
      .ok (intToStr (rand σ 9 0 1 pos).1, (rand σ 9 0 1 pos).2) ∧
    resolvePlaceholder σ ext "number".data ["abc".data] pos =
      .error (.valueError, pos) ∧
    applyModifier σ ext " ".data "scramble".data ["x".data] pos =
      .error (.valueError, pos) ∧
    resolvePlaceholderContent σ ext 10 st "sp+scramble(x)".data =
      .ok (" ".data, ⟨(st.counter + 1, " ".data) :: st.backrefs,
        st.counter + 1, st.pos⟩) := by
  refine ⟨rfl, rfl, rfl, ?_⟩
  simp [resolvePlaceholderContent, resolveContentCore, modLoop,
    processParams, resolvePlaceholder, applyModifier, applyModifierGo,
    parsePlaceholderContent, parseModifierSpec, stripQualifier, parseParams, splitDepth0,
    splitDepth0Go, splitOnChar, findIdx, findIdxFrom, extract, stripStr,
    stripChars, pyLower, pyLowerChar, pyIsUpperChar, pyInt, pyIntStart,
    pyIntCore, isPySpace, pyIsDigitChar, escapeValue, ESCAPE_VALUE_RULES,
    replaceAll, replaceAllGo]

/-- C1 counterexample: for the placeholder content `"sp+bogus"` the
modifier pipeline raises (`apply_modifier` returns the `ValueError`),
but the resolver catches it and resolves successfully — the generation
attempt does not fail and nothing propagates to the session. -/
theorem c1_counterexample :
    applyModifier sigma0 extTest " ".data "bogus".data [] 0 =
      .error (.valueError, 0) ∧
    resolvePlaceholderContent sigma0 extTest 10 ⟨[], 0, 0⟩ "sp+bogus".data =
      .ok (" ".data, ⟨[(1, " ".data)], 1, 0⟩) := by decide

/-- C1 amended: `apply_modifier` raises `ValueError` for every modifier
name outside the dispatch table applied to a non-empty word, but
`_resolve_placeholder_content` catches the `ValueError` and skips the
modifier, leaving the value unchanged; the failure is swallowed in the
resolver and never reaches the session, so no retry happens. -/
theorem c1_unknown_modifier_caught (σ : Nat → Nat) (ext : Ext) (st : GState)
    (word name : Str) (params : List Str) (pos : Nat)
    (hw : word ≠ [])
    (hunk : KNOWN_MODIFIERS.contains (stripStr (pyLower name)) = false) :
    applyModifier σ ext word name params pos = .error (.valueError, pos) ∧
    resolvePlaceholderContent σ ext 10 st "sp+bogus".data =
      .ok (" ".data, ⟨(st.counter + 1, " ".data) :: st.backrefs,
        st.counter + 1, st.pos⟩) := by
  constructor
  · have hne : ∀ s : Str, s ∈ KNOWN_MODIFIERS →
        stripStr (pyLower name) ≠ s := by
      intro s hs he
      rw [he] at hunk
      simp at hunk
      exact hunk hs
    cases word with
    | nil => exact absurd rfl hw
    | cons c t =>
      simp only [applyModifier, applyModifierGo, List.isEmpty_cons,
        Bool.false_eq_true, if_false]
      rw [if_neg (hne "a".data (by decide))]
      rw [if_neg (hne "bracket".data (by decide))]
      rw [if_neg (not_or.mpr ⟨hne "num2word".data (by decide),
        hne "num2words".data (by decide)⟩)]
      rw [if_neg (hne "reverse".data (by decide))]
      rw [if_neg (not_or.mpr ⟨hne "ucase".data (by decide),
        hne "uppercase".data (by decide)⟩)]
      rw [if_neg (not_or.mpr ⟨hne "lcase".data (by decide),
        hne "lowercase".data (by decide)⟩)]
      rw [if_neg (hne "propercase".data (by decide))]
      rw [if_neg (hne "sentencecase".data (by decide))]
      rw [if_neg (hne "obscure".data (by decide))]
      rw [if_neg (hne "replace".data (by decide))]
      rw [if_neg (hne "randomcase".data (by decide))]
      rw [if_neg (hne "scramble".data (by decide))]
      rw [if_neg (hne "piglatin".data (by decide))]
      rw [if_neg (hne "repeat".data (by decide))]
      rw [if_neg (hne "right".data (by decide))]
      rw [if_neg (hne "left".data (by decide))]
      rw [if_neg (hne "trim".data (by decide))]
      rw [if_neg (hne "format".data (by decide))]
      rw [if_neg (hne "mid".data (by decide))]
      rw [if_neg (hne "swap".data (by decide))]
      rw [if_neg (hne "romannumeral".data (by decide))]
      rw [if_neg (hne "hide".data (by decide))]
      rw [if_neg (hne "quote".data (by decide))]
      rw [if_neg (hne "stutter".data (by decide))]
      rw [if_neg (hne "random".data (by decide))]
  · simp [resolvePlaceholderContent, resolveContentCore, modLoop,
      processParams, resolvePlaceholder, applyModifier, applyModifierGo,
      parsePlaceholderContent, parseModifierSpec, stripQualifier, parseParams, splitDepth0,
      splitDepth0Go, splitOnChar, findIdx, findIdxFrom, extract, stripStr,
      stripChars, pyLower, pyLowerChar, pyIsUpperChar, pyInt, pyIntStart,
      pyIntCore, isPySpace, pyIsDigitChar, escapeValue, ESCAPE_VALUE_RULES,
      replaceAll, replaceAllGo]

/-- Witness for C1: the unknown name `"bogus"` on the word `" "`. -/
theorem c1_unknown_modifier_caught_witness :
    (" ".data ≠ ([] : Str) ∧
      KNOWN_MODIFIERS.contains (stripStr (pyLower "bogus".data)) = false) ∧
    applyModifier sigma0 extTest " ".data "bogus".data [] 5 =
      .error (.valueError, 5) :=
  ⟨⟨by decide, by decide⟩,
    (c1_unknown_modifier_caught sigma0 extTest ⟨[], 0, 0⟩ " ".data
      "bogus".data [] 5 (by decide) (by decide)).1⟩

/-- One-draw `rand` advances the stream by exactly one position. -/
theorem rand_one_snd (σ : Nat → Nat) (maxV minV : Int) (pos : Nat) :
    (rand σ maxV minV 1 pos).2 = pos + 1 := rfl

/-- C2: the qualifier check draws `d = rand(99, 0)` (always in
`[0, 99]`) and empties the value iff `d >= N`; a qualifier `N = 100`
therefore always retains the resolved value and `N = 0` always empties
it, for every draw stream; both for the in-content check and for the
post-brace check (`[...]` after the closing brace); and the pattern
`"A{symbol[0]}B"` always resolves to exactly `"AB"`. -/
theorem c2_qualifier_semantics (σ : Nat → Nat) (ext : Ext) (st : GState)
    (pos : Nat) (c c1 c0 : Str) (q : Int)
    (hnw : ("$W".data).isPrefixOf c = false)
    (halt : (parsePlaceholderContent c).alternatives = none)
    (hq : (parsePlaceholderContent c).qualifier = some q)
    (hnw1 : ("$W".data).isPrefixOf c1 = false)
    (halt1 : (parsePlaceholderContent c1).alternatives = none)
    (hq1 : (parsePlaceholderContent c1).qualifier = some 100)
    (hnw0 : ("$W".data).isPrefixOf c0 = false)
    (halt0 : (parsePlaceholderContent c0).alternatives = none)
    (hq0 : (parsePlaceholderContent c0).qualifier = some 0) :
    (0 ≤ (rand σ 99 0 1 st.pos).1 ∧ (rand σ 99 0 1 st.pos).1 ≤ 99) ∧
    resolvePlaceholderContent σ ext 10 st c =
      (if q ≤ (rand σ 99 0 1 st.pos).1
        then .ok ([], { st with pos := st.pos + 1 })
        else resolveContentCore σ ext 9 { st with pos := st.pos + 1 } c
          (parsePlaceholderContent c)) ∧
    resolvePlaceholderContent σ ext 10 st c1 =
      resolveContentCore σ ext 9 { st with pos := st.pos + 1 } c1
        (parsePlaceholderContent c1) ∧
    resolvePlaceholderContent σ ext 10 st c0 =
      .ok ([], { st with pos := st.pos + 1 }) ∧
    processPattern σ ext 10 st "\x7bsp\x7d[100]".data =
      .ok (" ".data, ⟨(st.counter + 1, " ".data) :: st.backrefs,
        st.counter + 1, st.pos + 1⟩) ∧
    processPattern σ ext 10 st "\x7bsp\x7d[0]".data =
      .ok ([], ⟨(st.counter + 1, " ".data) :: st.backrefs,
        st.counter + 1, st.pos + 1⟩) ∧
    generateFromPattern σ ext 100 "A\x7bsymbol[0]\x7dB".data pos =
      .ok ("AB".data, ⟨[], 0, pos + 1⟩) := by
  obtain ⟨h0, h99⟩ := rand99_mem σ st.pos
  have hiff : resolvePlaceholderContent σ ext 10 st c =
      (if q ≤ (rand σ 99 0 1 st.pos).1
        then .ok ([], { st with pos := st.pos + 1 })
        else resolveContentCore σ ext 9 { st with pos := st.pos + 1 } c
          (parsePlaceholderContent c)) := by
    simp only [resolvePlaceholderContent, hnw, Bool.false_eq_true, if_false,
      halt, hq, rand_one_snd]
  refine ⟨⟨h0, h99⟩, hiff, ?_, ?_, ?_, ?_, ?_⟩
  · have hiff1 : resolvePlaceholderContent σ ext 10 st c1 =
        (if (100 : Int) ≤ (rand σ 99 0 1 st.pos).1
          then .ok ([], { st with pos := st.pos + 1 })
          else resolveContentCore σ ext 9 { st with pos := st.pos + 1 } c1
            (parsePlaceholderContent c1)) := by
      simp only [resolvePlaceholderContent, hnw1, Bool.false_eq_true,
        if_false, halt1, hq1, rand_one_snd]
    rw [hiff1, if_neg (by omega)]
  · have hiff0 : resolvePlaceholderContent σ ext 10 st c0 =
        (if (0 : Int) ≤ (rand σ 99 0 1 st.pos).1
          then .ok ([], { st with pos := st.pos + 1 })
          else resolveContentCore σ ext 9 { st with pos := st.pos + 1 } c0
            (parsePlaceholderContent c0)) := by
      simp only [resolvePlaceholderContent, hnw0, Bool.false_eq_true,
        if_false, halt0, hq0, rand_one_snd]
    rw [hiff0, if_pos h0]
  · have hlt : ¬ (100 ≤ (rand σ 99 0 1 st.pos).1) := by omega
    simp [processPattern, resolvePlaceholderContent, resolveContentCore,
      modLoop, modChain, processParams, findMatching, splitAtChar,
      scanModSpan, resolvePlaceholder, parsePlaceholderContent,
      parseModifierSpec, stripQualifier, parseParams, splitDepth0, splitDepth0Go,
      splitOnChar, findIdx, findIdxFrom, extract, stripStr, stripChars,
      pyLower, pyLowerChar, pyIsUpperChar, pyInt, pyIntStart, pyIntCore,
      isPySpace, pyIsDigitChar, escapeValue, ESCAPE_VALUE_RULES,
      replaceAll, replaceAllGo, Except.map, rand_one_snd, hlt]
  · simp [processPattern, resolvePlaceholderContent, resolveContentCore,
      modLoop, modChain, processParams, findMatching, splitAtChar,
      scanModSpan, resolvePlaceholder, parsePlaceholderContent,
      parseModifierSpec, stripQualifier, parseParams, splitDepth0, splitDepth0Go,
      splitOnChar, findIdx, findIdxFrom, extract, stripStr, stripChars,
      pyLower, pyLowerChar, pyIsUpperChar, pyInt, pyIntStart, pyIntCore,
      isPySpace, pyIsDigitChar, escapeValue, ESCAPE_VALUE_RULES,
      replaceAll, replaceAllGo, Except.map, rand_one_snd, h0]
  · obtain ⟨g0, g99⟩ := rand99_mem σ pos
    simp [generateFromPattern, escapePattern, ESCAPE_SEQUENCES, unescape,
      UNESCAPE_SEQUENCES, collapseSpaces, collapseGo, containsSub,
      processPattern, resolvePlaceholderContent, resolveContentCore,
      modLoop, modChain, processParams, findMatching, splitAtChar,
      scanModSpan, resolvePlaceholder, parsePlaceholderContent,
      parseModifierSpec, stripQualifier, parseParams, splitDepth0, splitDepth0Go,
      splitOnChar, findIdx, findIdxFrom, extract, stripStr, stripChars,
      pyLower, pyLowerChar, pyIsUpperChar, pyInt, pyIntStart, pyIntCore,
      isPySpace, pyIsDigitChar, escapeValue, ESCAPE_VALUE_RULES,
      replaceAll, replaceAllGo, Except.map, rand_one_snd, g0]

/-- Witness for C2 with the contents `"sp[50]"`, `"sp[100]"`, `"sp[0]"`
under the all-zero stream. -/
theorem c2_qualifier_semantics_witness :
    (("$W".data).isPrefixOf "sp[50]".data = false ∧
      (parsePlaceholderContent "sp[50]".data).alternatives = none ∧
      (parsePlaceholderContent "sp[50]".data).qualifier = some 50 ∧
      (parsePlaceholderContent "sp[100]".data).qualifier = some 100 ∧
      (parsePlaceholderContent "sp[0]".data).qualifier = some 0) ∧
    resolvePlaceholderContent sigma0 extTest 10 ⟨[], 0, 0⟩ "sp[100]".data =
      resolveContentCore sigma0 extTest 9 ⟨[], 0, 1⟩ "sp[100]".data
        (parsePlaceholderContent "sp[100]".data) ∧
    resolvePlaceholderContent sigma0 extTest 10 ⟨[], 0, 0⟩ "sp[0]".data =
      .ok ([], ⟨[], 0, 1⟩) ∧
    generateFromPattern sigma0 extTest 100 "A\x7bsymbol[0]\x7dB".data 0 =
      .ok ("AB".data, ⟨[], 0, 1⟩) :=
  ⟨⟨by decide, by decide, by decide, by decide, by decide⟩,
    (c2_qualifier_semantics sigma0 extTest ⟨[], 0, 0⟩ 0 "sp[50]".data
      "sp[100]".data "sp[0]".data 50 (by decide) (by decide) (by decide)
      (by decide) (by decide) (by decide) (by decide) (by decide)
      (by decide)).2.2.1,
    (c2_qualifier_semantics sigma0 extTest ⟨[], 0, 0⟩ 0 "sp[50]".data
      "sp[100]".data "sp[0]".data 50 (by decide) (by decide) (by decide)
      (by decide) (by decide) (by decide) (by decide) (by decide)
      (by decide)).2.2.2.1,
    (c2_qualifier_semantics sigma0 extTest ⟨[], 0, 0⟩ 0 "sp[50]".data
      "sp[100]".data "sp[0]".data 50 (by decide) (by decide) (by decide)
      (by decide) (by decide) (by decide) (by decide) (by decide)
      (by decide)).2.2.2.2.2.2⟩

theorem findMatching_of_noBrace (c : Str) (rest acc : Str)
    (h1 : c.contains '\x7b' = false) (h2 : c.contains '\x7d' = false) :
    findMatching 1 acc (c ++ '\x7d' :: rest) = some (acc ++ c, rest) := by
  induction c generalizing acc with
  | nil => simp [findMatching]
  | cons d cs ih =>
    simp only [List.contains_cons, Bool.or_eq_false_iff,
      beq_eq_false_iff_ne, ne_eq] at h1 h2
    rw [List.cons_append, findMatching,
      if_neg (fun he => h1.1 he.symm), if_neg (fun he => h2.1 he.symm)]
    rw [ih (acc ++ [d]) h1.2 h2.2]
    simp

theorem processPattern_noBrace (σ : Nat → Nat) (ext : Ext) (c : Str)
    (st : GState) (fuel : Nat) (h : c.contains '\x7b' = false)
    (hf : c.length < fuel) :
    processPattern σ ext fuel st c = .ok (c, st) := by
  induction c generalizing fuel st with
  | nil =>
    cases fuel with
    | zero => omega
    | succ f => rfl
  | cons d cs ih =>
    cases fuel with
    | zero => omega
    | succ f =>
      simp only [List.contains_cons, Bool.or_eq_false_iff,
        beq_eq_false_iff_ne, ne_eq] at h
      rw [processPattern, if_neg (fun he => h.1 he.symm)]
      rw [ih st f h.2 (by simp at hf; omega)]
      rfl

theorem stripQualifier_fst_mem (spec : Str) :
    ∀ y ∈ (stripQualifier spec).1, y ∈ spec := by
  intro y hy
  unfold stripQualifier at hy
  cases h1 : findIdx '[' spec with
  | none =>
    rw [h1] at hy
    exact hy
  | some qs =>
    rw [h1] at hy
    replace hy : y ∈ (match findIdxFrom ']' spec qs with
      | none => (spec, (none : Option Int))
      | some qe => (spec.take qs ++ spec.drop (qe + 1),
          pyInt (extract spec (qs + 1) qe))).1 := hy
    cases h2 : findIdxFrom ']' spec qs with
    | none =>
      rw [h2] at hy
      exact hy
    | some qe =>
      rw [h2] at hy
      rcases List.mem_append.mp hy with h | h
      · exact (List.take_subset _ _) h
      · exact (List.drop_subset _ _) h

/-- Characters of any piece produced by the depth-0 split come from the
accumulator or the input. -/
theorem splitDepth0Go_mem (sep : Char) (s : Str) :
    ∀ (d : Int) (cur p : Str), p ∈ splitDepth0Go sep d cur s →
      ∀ x ∈ p, x ∈ cur ∨ x ∈ s := by
  induction s with
  | nil =>
    intro d cur p hp x hx
    simp only [splitDepth0Go] at hp
    by_cases hc : cur.isEmpty
    · rw [if_pos hc] at hp
      simp at hp
    · rw [if_neg hc] at hp
      simp only [List.mem_singleton] at hp
      subst hp
      exact Or.inl hx
  | cons c rest ih =>
    intro d cur p hp x hx
    simp only [splitDepth0Go] at hp
    by_cases h1 : c = '('
    · rw [if_pos h1] at hp
      rcases ih _ _ _ hp x hx with h | h
      · rcases List.mem_append.mp h with h | h
        · exact Or.inl h
        · simp only [List.mem_singleton] at h
          subst h
          exact Or.inr (List.mem_cons_self _ _)
      · exact Or.inr (List.mem_cons_of_mem _ h)
    · rw [if_neg h1] at hp
      by_cases h2 : c = ')'
      · rw [if_pos h2] at hp
        rcases ih _ _ _ hp x hx with h | h
        · rcases List.mem_append.mp h with h | h
          · exact Or.inl h
          · simp only [List.mem_singleton] at h
            subst h
            exact Or.inr (List.mem_cons_self _ _)
        · exact Or.inr (List.mem_cons_of_mem _ h)
      · rw [if_neg h2] at hp
        by_cases h3 : c = sep ∧ d = 0
        · rw [if_pos h3] at hp
          rcases List.mem_cons.mp hp with rfl | hp
          · exact Or.inl hx
          · rcases ih _ _ _ hp x hx with h | h
            · simp at h
            · exact Or.inr (List.mem_cons_of_mem _ h)
        · rw [if_neg h3] at hp
          rcases ih _ _ _ hp x hx with h | h
          · rcases List.mem_append.mp h with h | h
            · exact Or.inl h
            · simp only [List.mem_singleton] at h
              subst h
              exact Or.inr (List.mem_cons_self _ _)
          · exact Or.inr (List.mem_cons_of_mem _ h)

/-- Characters of any piece of a depth-0 split come from the input. -/
theorem splitDepth0_mem (sep : Char) (s p : Str)
    (hp : p ∈ splitDepth0 sep s) : ∀ x ∈ p, x ∈ s := by
  intro x hx
  unfold splitDepth0 at hp
  cases hgo : splitDepth0Go sep 0 [] s with
  | nil =>
    rw [hgo] at hp
    simp only [List.mem_singleton] at hp
    subst hp
    exact hx
  | cons a l =>
    rw [hgo] at hp
    rcases splitDepth0Go_mem sep s 0 [] p (hgo ▸ hp) x hx with h | h
    · simp at h
    · exact h

/-- Characters of any piece of a single-character split come from the
input. -/
theorem splitOnChar_mem (sep : Char) (s : Str) :
    ∀ p ∈ splitOnChar sep s, ∀ x ∈ p, x ∈ s := by
  induction s with
  | nil =>
    intro p hp x hx
    simp only [splitOnChar, List.mem_singleton] at hp
    subst hp
    simp at hx
  | cons c rest ih =>
    intro p hp x hx
    rw [splitOnChar] at hp
    cases hm : splitOnChar sep rest with
    | nil =>
      rw [hm] at hp
      replace hp : p ∈ (if c = sep then [[], []] else [[c]]) := hp
      by_cases hc : c = sep
      · rw [if_pos hc] at hp
        rcases List.mem_cons.mp hp with rfl | hp
        · simp at hx
        · simp only [List.mem_singleton] at hp
          subst hp
          simp at hx
      · rw [if_neg hc] at hp
        simp only [List.mem_singleton] at hp
        subst hp
        simp only [List.mem_singleton] at hx
        subst hx
        exact List.mem_cons_self _ _
    | cons hh tt =>
      rw [hm] at hp
      replace hp : p ∈ (if c = sep then [] :: hh :: tt else (c :: hh) :: tt) := hp
      by_cases hc : c = sep
      · rw [if_pos hc] at hp
        rcases List.mem_cons.mp hp with rfl | hp
        · simp at hx
        · exact List.mem_cons_of_mem _ (ih p (hm ▸ hp) x hx)
      · rw [if_neg hc] at hp
        rcases List.mem_cons.mp hp with rfl | hp
        · rcases List.mem_cons.mp hx with rfl | hx
          · exact List.mem_cons_self _ _
          · exact List.mem_cons_of_mem _
              (ih hh (hm ▸ List.mem_cons_self _ _) x hx)
        · exact List.mem_cons_of_mem _
            (ih p (hm ▸ List.mem_cons_of_mem _ hp) x hx)

theorem stripChars_mem (cs : List Char) (s : Str) :
    ∀ x ∈ stripChars cs s, x ∈ s := by
  intro x hx
  unfold stripChars at hx
  rw [List.mem_reverse] at hx
  have h1 := (List.dropWhile_sublist _ (l := ((s.dropWhile
    (cs.contains ·)).reverse))).subset hx
  rw [List.mem_reverse] at h1
  exact (List.dropWhile_sublist _).subset h1

theorem stripStr_mem (s : Str) : ∀ x ∈ stripStr s, x ∈ s := by
  intro x hx
  unfold stripStr at hx
  rw [List.mem_reverse] at hx
  have h1 := (List.dropWhile_sublist _ (l := ((s.dropWhile
    isPySpace).reverse))).subset hx
  rw [List.mem_reverse] at h1
  exact (List.dropWhile_sublist _).subset h1

theorem extract_mem (s : Str) (a b : Nat) : ∀ x ∈ extract s a b, x ∈ s := by
  intro x hx
  unfold extract at hx
  exact (List.drop_subset _ _) ((List.take_subset _ _) hx)

theorem parseParams_mem (ps : Str) :
    ∀ p ∈ parseParams ps, ∀ x ∈ p, x ∈ ps := by
  intro p hp x hx
  unfold parseParams at hp
  obtain ⟨q, hq, rfl⟩ := List.mem_map.mp hp
  exact splitOnChar_mem ',' ps q hq x (stripStr_mem q x (stripChars_mem _ _ x hx))

theorem parseModifierSpec_params_mem (spec : Str) :
    ∀ p ∈ (parseModifierSpec spec).2.1, ∀ x ∈ p, x ∈ spec := by
  intro p hp x hx
  unfold parseModifierSpec at hp
  replace hp : p ∈ (match findIdx '(' (stripQualifier spec).1 with
    | none => ((stripQualifier spec).1, ([] : List Str),
        (stripQualifier spec).2)
    | some ps =>
      match findIdxFrom ')' (stripQualifier spec).1 ps with
      | none => ((stripQualifier spec).1, [], (stripQualifier spec).2)
      | some pe => (((stripQualifier spec).1).take ps,
          parseParams (extract (stripQualifier spec).1 (ps + 1) pe),
          (stripQualifier spec).2)).2.1 := hp
  cases h1 : findIdx '(' (stripQualifier spec).1 with
  | none =>
    rw [h1] at hp
    simp at hp
  | some ps =>
    rw [h1] at hp
    replace hp : p ∈ (match findIdxFrom ')' (stripQualifier spec).1 ps with
      | none => ((stripQualifier spec).1, ([] : List Str),
          (stripQualifier spec).2)
      | some pe => (((stripQualifier spec).1).take ps,
          parseParams (extract (stripQualifier spec).1 (ps + 1) pe),
          (stripQualifier spec).2)).2.1 := hp
    cases h2 : findIdxFrom ')' (stripQualifier spec).1 ps with
    | none =>
      rw [h2] at hp
      simp at hp
    | some pe =>
      rw [h2] at hp
      exact stripQualifier_fst_mem spec x
        (extract_mem _ _ _ x (parseParams_mem _ p hp x hx))

/-- With no top-level pipe the parse keeps `alternatives = none`. -/
theorem parse_alternatives_none (c : Str)
    (h : (splitDepth0 '|' c).length = 1) :
    (parsePlaceholderContent c).alternatives = none := by
  unfold parsePlaceholderContent
  rw [if_neg (by omega)]
  dsimp only
  cases h3 : findIdx '(' (stripQualifier ((splitDepth0 '+' c).headD [])).1 with
  | none => rfl
  | some ps =>
    dsimp only
    cases h4 : findIdxFrom ')'
        (stripQualifier ((splitDepth0 '+' c).headD [])).1 ps with
    | none => rfl
    | some pe => rfl

/-- With no top-level pipe the parsed modifiers are exactly the specs
after the first `+`. -/
theorem parse_modifiers_eq (c : Str)
    (h : (splitDepth0 '|' c).length = 1) :
    (parsePlaceholderContent c).modifiers =
      (splitDepth0 '+' c).tail.map parseModifierSpec := by
  unfold parsePlaceholderContent
  rw [if_neg (by omega)]
  dsimp only
  cases h3 : findIdx '(' (stripQualifier ((splitDepth0 '+' c).headD [])).1 with
  | none => rfl
  | some ps =>
    dsimp only
    cases h4 : findIdxFrom ')'
        (stripQualifier ((splitDepth0 '+' c).headD [])).1 ps with
    | none => rfl
    | some pe => rfl

/-- Parameters of the parsed modifiers of brace-free content are
brace-free. -/
theorem parse_modParams_noBrace (c : Str)
    (hc : c.contains '\x7b' = false)
    (h : (splitDepth0 '|' c).length = 1) :
    ∀ t ∈ (parsePlaceholderContent c).modifiers, ∀ p ∈ t.2.1,
      p.contains '\x7b' = false := by
  intro t ht p hp
  rw [parse_modifiers_eq c h] at ht
  obtain ⟨spec, hspec, rfl⟩ := List.mem_map.mp ht
  by_contra hcon
  simp only [Bool.not_eq_false] at hcon
  have hx : '\x7b' ∈ p := by
    simpa using hcon
  have h1 : '\x7b' ∈ spec := parseModifierSpec_params_mem spec p hp _ hx
  have h2 : '\x7b' ∈ c :=
    splitDepth0_mem '+' c spec (List.mem_of_mem_tail hspec) _ h1
  have hnot : '\x7b' ∉ c := by simpa using hc
  exact hnot h2

/-- Brace-free parameters pass through parameter processing unchanged
(or fuel runs out). -/
theorem processParams_noBrace (σ : Nat → Nat) (ext : Ext) (f : Nat)
    (u : Bool) (st : GState) (ps : List Str)
    (h : ∀ p ∈ ps, p.contains '\x7b' = false) :
    (∃ e, processParams σ ext f u st ps = .error e) ∨
    processParams σ ext f u st ps = .ok (ps, st) := by
  induction ps generalizing f st with
  | nil =>
    cases f with
    | zero => exact Or.inl ⟨(.fuel, st.pos), rfl⟩
    | succ f => exact Or.inr rfl
  | cons p ps ih =>
    cases f with
    | zero => exact Or.inl ⟨(.fuel, st.pos), rfl⟩
    | succ f =>
      have hp := h p (List.mem_cons_self _ _)
      rw [processParams, if_neg (by simpa using hp)]
      rcases ih f st (fun q hq => h q (List.mem_cons_of_mem _ hq)) with
        ⟨e, He⟩ | He
      · rw [He]
        exact Or.inl ⟨e, rfl⟩
      · rw [He]
        exact Or.inr rfl

/-- With brace-free modifier parameters the in-content modifier loop
changes only the value and the stream position, never the
backreference store or the counter. -/
theorem modLoop_pos_only (σ : Nat → Nat) (ext : Ext) (f : Nat)
    (st : GState) (v : Str) (mods : List (Str × List Str × Option Int))
    (h : ∀ t ∈ mods, ∀ p ∈ t.2.1, p.contains '\x7b' = false) :
    (∃ e, modLoop σ ext f st v mods = .error e) ∨
    (∃ v2 pos2, modLoop σ ext f st v mods =
      .ok (v2, ⟨st.backrefs, st.counter, pos2⟩)) := by
  induction mods generalizing f st v with
  | nil =>
    cases f with
    | zero => exact Or.inl ⟨_, rfl⟩
    | succ f => exact Or.inr ⟨v, st.pos, rfl⟩
  | cons t mods ih =>
    cases f with
    | zero => exact Or.inl ⟨_, rfl⟩
    | succ f =>
      obtain ⟨mname, mparams, mqual⟩ := t
      have hps : ∀ p ∈ mparams, p.contains '\x7b' = false :=
        h _ (List.mem_cons_self _ _)
      have hrest : ∀ t ∈ mods, ∀ p ∈ t.2.1, p.contains '\x7b' = false :=
        fun t ht => h t (List.mem_cons_of_mem _ ht)
      have happly : ∀ (st2 : GState),
          st2.backrefs = st.backrefs → st2.counter = st.counter →
          (∃ e, (match applyModifier σ ext v mname mparams st2.pos with
            | .ok (v2, pos2) =>
              modLoop σ ext f ⟨st2.backrefs, st2.counter, pos2⟩ v2 mods
            | .error (.valueError, pos2) =>
              modLoop σ ext f ⟨st2.backrefs, st2.counter, pos2⟩ v mods
            | .error e => .error e) = .error e) ∨
          (∃ v2 pos2, (match applyModifier σ ext v mname mparams st2.pos with
            | .ok (v2, pos2) =>
              modLoop σ ext f ⟨st2.backrefs, st2.counter, pos2⟩ v2 mods
            | .error (.valueError, pos2) =>
              modLoop σ ext f ⟨st2.backrefs, st2.counter, pos2⟩ v mods
            | .error e => .error e) = .ok (v2, ⟨st.backrefs, st.counter, pos2⟩)) := by
        intro st2 hb hc
        cases ha : applyModifier σ ext v mname mparams st2.pos with
        | ok vp =>
          obtain ⟨v2, pos2⟩ := vp
          dsimp only
          rcases ih f ⟨st2.backrefs, st2.counter, pos2⟩ v2 hrest with
            ⟨e, He⟩ | ⟨v3, pos3, He⟩
          · rw [He]
            exact Or.inl ⟨e, rfl⟩
          · rw [He]
            exact Or.inr ⟨v3, pos3, by rw [hb, hc]⟩
        | error pe =>
          obtain ⟨perr, ppos⟩ := pe
          cases perr with
          | valueError =>
            dsimp only
            rcases ih f ⟨st2.backrefs, st2.counter, ppos⟩ v hrest with
              ⟨e, He⟩ | ⟨v3, pos3, He⟩
            · rw [He]
              exact Or.inl ⟨e, rfl⟩
            · rw [He]
              exact Or.inr ⟨v3, pos3, by rw [hb, hc]⟩
          | indexError => exact Or.inl ⟨_, rfl⟩
          | fileNotFound => exact Or.inl ⟨_, rfl⟩
          | fuel => exact Or.inl ⟨_, rfl⟩
      rw [modLoop.eq_def]
      dsimp only
      cases mqual with
      | none =>
        dsimp only
        rcases processParams_noBrace σ ext f true st mparams hps with
          ⟨e, He⟩ | He
        · rw [He]
          exact Or.inl ⟨e, rfl⟩
        · rw [He]
          exact happly st rfl rfl
      | some q =>
        dsimp only
        by_cases hq : (rand σ 99 0 1 st.pos).1 < q
        · rw [if_pos (show decide ((rand σ 99 0 1 st.pos).1 < q) = true by
            simp [hq])]
          rcases processParams_noBrace σ ext f true
              ⟨st.backrefs, st.counter, (rand σ 99 0 1 st.pos).2⟩ mparams hps with
            ⟨e, He⟩ | He
          · rw [He]
            exact Or.inl ⟨e, rfl⟩
          · rw [He]
            exact happly _ rfl rfl
        · rw [if_neg (show ¬ decide ((rand σ 99 0 1 st.pos).1 < q) = true by
            simp [hq])]
          rcases ih f ⟨st.backrefs, st.counter, (rand σ 99 0 1 st.pos).2⟩ v
              hrest with ⟨e, He⟩ | ⟨v3, pos3, He⟩
          · rw [He]
            exact Or.inl ⟨e, rfl⟩
          · rw [He]
            exact Or.inr ⟨v3, pos3, rfl⟩

/-- With brace-free modifier parameters, the core path of the resolver
either raises, or stores its result under the next backreference key
and returns exactly that value. -/
theorem resolveCore_outcomes (σ : Nat → Nat) (ext : Ext) (f : Nat)
    (st : GState) (c : Str) (parsed : Parsed)
    (hmods : ∀ t ∈ parsed.modifiers, ∀ p ∈ t.2.1,
      p.contains '\x7b' = false) :
    (∃ e, resolveContentCore σ ext f st c parsed = .error e) ∨
    (∃ v pos2, resolveContentCore σ ext f st c parsed =
      .ok (v, ⟨(st.counter + 1, v) :: st.backrefs, st.counter + 1, pos2⟩)) := by
  cases f with
  | zero => exact Or.inl ⟨_, rfl⟩
  | succ f =>
    rw [resolveContentCore.eq_def]
    dsimp only
    split
    · exact Or.inr ⟨_, st.pos, rfl⟩
    · cases hr : resolvePlaceholder σ ext parsed.name parsed.params st.pos with
      | error e => exact Or.inl ⟨e, rfl⟩
      | ok vp =>
        obtain ⟨value, pos1⟩ := vp
        dsimp only
        rcases modLoop_pos_only σ ext f ⟨st.backrefs, st.counter, pos1⟩
            value parsed.modifiers hmods with ⟨e, He⟩ | ⟨v2, pos2, He⟩
        · rw [He]
          exact Or.inl ⟨e, rfl⟩
        · rw [He]
          exact Or.inr ⟨escapeValue v2, pos2, rfl⟩

/-- For brace-free, non-backreference, non-alternatives content the
resolver raises, or stores and returns its value under the next key, or
returns empty without storing (failed qualifier). -/
theorem resolve_outcomes (σ : Nat → Nat) (ext : Ext) (f : Nat)
    (st : GState) (c : Str)
    (hnw : ("$W".data).isPrefixOf c = false)
    (hnalt : (splitDepth0 '|' c).length = 1)
    (hnb : c.contains '\x7b' = false) :
    (∃ e, resolvePlaceholderContent σ ext (f + 1) st c = .error e) ∨
    (∃ v pos2, resolvePlaceholderContent σ ext (f + 1) st c =
      .ok (v, ⟨(st.counter + 1, v) :: st.backrefs, st.counter + 1, pos2⟩)) ∨
    (∃ pos2, resolvePlaceholderContent σ ext (f + 1) st c =
      .ok ([], ⟨st.backrefs, st.counter, pos2⟩)) := by
  have hmods := parse_modParams_noBrace c hnb hnalt
  have halt := parse_alternatives_none c hnalt
  rw [resolvePlaceholderContent.eq_def]
  dsimp only
  rw [if_neg (by simp [hnw])]
  rw [halt]
  dsimp only
  cases hq : (parsePlaceholderContent c).qualifier with
  | none =>
    dsimp only
    rcases resolveCore_outcomes σ ext f st c _ hmods with ⟨e, He⟩ | ⟨v, p2, He⟩
    · rw [He]
      exact Or.inl ⟨e, rfl⟩
    · rw [He]
      exact Or.inr (Or.inl ⟨v, p2, rfl⟩)
  | some q =>
    dsimp only
    by_cases hd : q ≤ (rand σ 99 0 1 st.pos).1
    · rw [if_pos hd]
      exact Or.inr (Or.inr ⟨(rand σ 99 0 1 st.pos).2, rfl⟩)
    · rw [if_neg hd]
      rcases resolveCore_outcomes σ ext f
          ⟨st.backrefs, st.counter, (rand σ 99 0 1 st.pos).2⟩ c _ hmods with
        ⟨e, He⟩ | ⟨v, p2, He⟩
      · rw [He]
        exact Or.inl ⟨e, rfl⟩
      · rw [He]
        exact Or.inr (Or.inl ⟨v, p2, rfl⟩)

theorem isPrefixOf_append (a b : Str) : a.isPrefixOf (a ++ b) = true := by
  induction a with
  | nil => simp [List.isPrefixOf]
  | cons x xs ih => simp [List.isPrefixOf, ih]

/-- A `$W` backreference whose key was never assigned resolves to the
empty string without touching the state. -/
theorem resolve_backref_missing (σ : Nat → Nat) (ext : Ext) (f : Nat)
    (st : GState) (s : Str) (k : Int)
    (hk : pyInt s = some k) (h0 : 0 ≤ k)
    (hmiss : lookupBackref st k.toNat = none) :
    resolvePlaceholderContent σ ext (f + 1) st ("$W".data ++ s) =
      .ok ([], st) := by
  rw [resolvePlaceholderContent.eq_def]
  dsimp only
  rw [if_pos (isPrefixOf_append "$W".data s)]
  have hdrop : ("$W".data ++ s).drop 2 = s := rfl
  rw [hdrop, hk]
  dsimp only
  rw [if_pos h0, hmiss]

/-- Resolving the literal pattern `\x7b$W1\x7d` returns the stored value
for key 1 (or empty) and leaves the state unchanged. -/
theorem processPattern_backref1 (σ : Nat → Nat) (ext : Ext) (f : Nat)
    (st : GState) :
    processPattern σ ext (f + 6) st "\x7b$W1\x7d".data =
      .ok ((lookupBackref st 1).getD [], st) := by
  simp only [lookupBackref]
  simp [processPattern, resolvePlaceholderContent, resolveContentCore,
    modLoop, modChain, processParams, findMatching, splitAtChar,
    scanModSpan, resolvePlaceholder, parsePlaceholderContent,
    parseModifierSpec, stripQualifier, parseParams, splitDepth0, splitDepth0Go,
    splitOnChar, findIdx, findIdxFrom, extract, stripStr, stripChars,
    pyLower, pyLowerChar, pyIsUpperChar, pyInt, pyIntStart, pyIntCore,
    isPySpace, pyIsDigitChar, escapeValue, ESCAPE_VALUE_RULES,
    replaceAll, replaceAllGo, Except.map, rand_one_snd]
  cases hfind : List.find? (fun p => decide (p.1 = 1)) st.backrefs <;>
    simp [lookupBackref, hfind]

/-- C3, counterexample: for the alternatives content `a|a` the pattern
`\x7ba|a\x7d\x7b$W1\x7d` generates `"a"`, not the doubled `"aa"`: the
alternatives path returns without storing a backreference, so the
second placeholder resolves to the empty string, not to the first
placeholder's value. -/
theorem c3_counterexample :
    generateFromPattern sigma0 extTest 100 "\x7ba|a\x7d".data 0 =
      .ok ("a".data, ⟨[], 0, 1⟩) ∧
    generateFromPattern sigma0 extTest 100 "\x7ba|a\x7d\x7b$W1\x7d".data 0 =
      .ok ("a".data, ⟨[], 0, 1⟩) ∧
    ("a".data : Str) ≠ "a".data ++ "a".data := by
  obtain ⟨h0, h1⟩ := @rand_mem sigma0 1 0 1 0 (by norm_num) (by norm_num)
  have hd : (rand sigma0 1 0 1 0).1 = 0 ∨ (rand sigma0 1 0 1 0).1 = 1 := by
    omega
  refine ⟨?_, ?_, by decide⟩ <;> rcases hd with hd | hd <;>
    simp [generateFromPattern, escapePattern, ESCAPE_SEQUENCES, unescape,
      UNESCAPE_SEQUENCES, collapseSpaces, collapseGo, containsSub,
      processPattern, resolvePlaceholderContent, resolveContentCore,
      modLoop, modChain, processParams, findMatching, splitAtChar,
      scanModSpan, resolvePlaceholder, parsePlaceholderContent,
      parseModifierSpec, stripQualifier, parseParams, splitDepth0,
      splitDepth0Go, splitOnChar, findIdx, findIdxFrom, extract, stripStr,
      stripChars, pyLower, pyLowerChar, pyIsUpperChar, pyInt, pyIntStart,
      pyIntCore, isPySpace, pyIsDigitChar, escapeValue, ESCAPE_VALUE_RULES,
      replaceAll, replaceAllGo, Except.map, rand_one_snd, pickOneList,
      lookupBackref, hd]

/-- C3 amended: the backreference store is fed only by the
literal-grouping and builtin-dispatch paths of the resolver, not by the
alternatives path; so for brace-free placeholder content `X` with no
top-level `|` and not itself a backreference, every successful
generation from `\x7bX\x7d\x7b$W1\x7d` yields a doubled string
`u ++ u`; and a `$W` placeholder whose key was never assigned resolves
to the empty string without error and without touching the state. -/
theorem c3_backreference (σ : Nat → Nat) (ext : Ext) (c : Str) (pos : Nat)
    (hb : c.contains '\x7b' = false) (hb2 : c.contains '\x7d' = false)
    (hnalt : (splitDepth0 '|' c).length = 1)
    (hnw : ("$W".data).isPrefixOf c = false) :
    (∀ v st', processPattern σ ext (c.length + 12) ⟨[], 0, pos⟩
        (('\x7b' :: c) ++ ('\x7d' :: "\x7b$W1\x7d".data)) = .ok (v, st') →
      ∃ u, v = u ++ u) ∧
    (∀ (st : GState) (s : Str) (k : Int), pyInt s = some k → 0 ≤ k →
      lookupBackref st k.toNat = none →
      resolvePlaceholderContent σ ext 10 st ("$W".data ++ s) =
        .ok ([], st)) := by
  constructor
  · intro v st' h
    rw [show c.length + 12 = ((c.length + 10) + 1) + 1 from rfl] at h
    rw [List.cons_append, processPattern, if_pos rfl] at h
    rw [findMatching_of_noBrace c _ [] hb hb2] at h
    dsimp only at h
    simp only [List.nil_append] at h
    rw [processPattern_noBrace σ ext c ⟨[], 0, pos⟩ ((c.length + 10) + 1)
      hb (by omega)] at h
    dsimp only at h
    rcases resolve_outcomes σ ext (c.length + 10) ⟨[], 0, pos⟩ c hnw hnalt hb
      with ⟨e, He⟩ | ⟨v0, p2, He⟩ | ⟨p2, He⟩
    · rw [He] at h
      exact absurd h (by simp)
    · rw [He] at h
      dsimp only at h
      simp [processPattern, resolvePlaceholderContent, resolveContentCore,
        modLoop, modChain, processParams, findMatching, splitAtChar,
        scanModSpan, resolvePlaceholder, parsePlaceholderContent,
        parseModifierSpec, stripQualifier, parseParams, splitDepth0,
        splitDepth0Go, splitOnChar, findIdx, findIdxFrom, extract, stripStr,
        stripChars, pyLower, pyLowerChar, pyIsUpperChar, pyInt, pyIntStart,
        pyIntCore, isPySpace, pyIsDigitChar, escapeValue, ESCAPE_VALUE_RULES,
        replaceAll, replaceAllGo, Except.map, rand_one_snd,
        lookupBackref] at h
      exact ⟨v0, h.1.symm⟩
    · rw [He] at h
      dsimp only at h
      simp [processPattern, resolvePlaceholderContent, resolveContentCore,
        modLoop, modChain, processParams, findMatching, splitAtChar,
        scanModSpan, resolvePlaceholder, parsePlaceholderContent,
        parseModifierSpec, stripQualifier, parseParams, splitDepth0,
        splitDepth0Go, splitOnChar, findIdx, findIdxFrom, extract, stripStr,
        stripChars, pyLower, pyLowerChar, pyIsUpperChar, pyInt, pyIntStart,
        pyIntCore, isPySpace, pyIsDigitChar, escapeValue, ESCAPE_VALUE_RULES,
        replaceAll, replaceAllGo, Except.map, rand_one_snd,
        lookupBackref] at h
      exact ⟨[], by simp [h.1.symm]⟩
  · intro st s k hk hknn hmiss
    exact resolve_backref_missing σ ext 9 st s k hk hknn hmiss

/-- Witness for C3 with the content `"sp"` under the all-zero stream. -/
theorem c3_backreference_witness :
    (("sp".data.contains '\x7b' = false) ∧
      ("sp".data.contains '\x7d' = false) ∧
      (splitDepth0 '|' "sp".data).length = 1 ∧
      ("$W".data).isPrefixOf "sp".data = false) ∧
    ((∀ v st', processPattern sigma0 extTest ("sp".data.length + 12)
        ⟨[], 0, 0⟩ (('\x7b' :: "sp".data) ++ ('\x7d' :: "\x7b$W1\x7d".data)) =
          .ok (v, st') → ∃ u, v = u ++ u) ∧
    (∀ (st : GState) (s : Str) (k : Int), pyInt s = some k → 0 ≤ k →
      lookupBackref st k.toNat = none →
      resolvePlaceholderContent sigma0 extTest 10 st ("$W".data ++ s) =
        .ok ([], st))) :=
  ⟨⟨by decide, by decide, by decide, by decide⟩,
    c3_backreference sigma0 extTest "sp".data 0 (by decide) (by decide)
      (by decide) (by decide)⟩

end Pyfwert
